import Mathlib

set_option maxRecDepth 8000

/-!
Verification of the component-model marshaling core
(`wasm-component-model/src/common/componentModel.ts`).

The development shallowly embeds the TypeScript source: JavaScript numbers
are modeled as exact dyadic rationals (every JS number is an IEEE-754
binary64 value, hence a dyadic rational) together with NaN and the two
infinities; JS bigints are `Int`; linear memory is a byte function with a
bump allocator; fallible operations return `Except`.  Definitions follow
the source functions line by line; deviations forced by the embedding are
noted in comments at the definition concerned.
-/

namespace CM

/-- Error taxonomy.  The source distinguishes plain `Error` and
`ComponentModelError` and interpolates offending values into messages; the
claims only depend on which operations fail, so errors are modeled as a
small enumeration. -/
inductive CMErr where
  /-- a range / validation failure (`Invalid u8 value ...` and similar) -/
  | validation
  /-- `Too many cases` from `discriminantType` -/
  | tooManyCases
  /-- `Mismatched flat types` / `Invalid coercion` from variant lowering -/
  | mismatchedFlatTypes
  /-- `Invalid code point` or `String length must be 1` from `$wchar` -/
  | invalidCodePoint
  /-- `Enumeration value out of range` -/
  | enumOutOfRange
  /-- `Received an option value although options should be unpacked.` and
  its converse from `OptionType.asOptionValue` -/
  | optionMismatch
  /-- `Value too big for number` from `BigInts.asNumber` -/
  | bigIntTooBig
  /-- `latin1+utf-16 encoding not yet supported` / `Unsupported encoding` -/
  | unsupportedEncoding
  /-- `Result pointer must be a number (u32), ...` from `callService` -/
  | resultPtrNotNumber
  /-- `Invalid number of parameters. ...` from `callService` -/
  | invalidParamCount
  /-- `Invalid result` from `lowerReturnValue` -/
  | invalidResult
  /-- `Invalid pointer` from `liftParamValues` -/
  | invalidPointer
  /-- a JavaScript dynamic type error: the source's TypeScript signatures
  exclude these inputs statically, or the untyped source would crash
  (`undefined` property access, `BigInt(non-integer)`, iterating a
  non-array); the embedding makes them explicit errors -/
  | typeErr
deriving DecidableEq

/-- `2 ^ k` as an integer, computed through `Nat.pow` (which the kernel
evaluates with arbitrary-precision arithmetic in constant recursion
depth, unlike the unary `Monoid.npow` unfolding). -/
def tpow (k : Nat) : Int := ((2 ^ k : Nat) : Int)

/-- A JavaScript number: NaN, an infinity, or the exact dyadic rational
value `m * 2 ^ e` of a finite double.  The canonical representation
(produced by `JSNum.mkFin` and by all arithmetic here) has `e ≤ 0`, with
`m` odd whenever `e < 0` and `e = 0` whenever `m = 0`; integers are always
`.fin n 0`.  Any representation is accepted by the semantic operations
below. -/
inductive JSNum where
  | nan
  | inf (neg : Bool)
  | fin (m : Int) (e : Int)
deriving DecidableEq

namespace JSNum

/-- Strip factors of two from `m` while `e < 0`.  Fuel-bounded structural
recursion so that the kernel can evaluate it; the fuel below covers every
value with a 2-adic valuation up to 4200, far beyond any IEEE-754
exponent. -/
def stripTwos : Nat → Int → Int → Int × Int
  | 0, m, e => (m, e)
  | fuel + 1, m, e =>
    if e < 0 ∧ m % 2 = 0 then stripTwos fuel (m / 2) (e + 1) else (m, e)

/-- Smart constructor producing the canonical representation of
`m * 2 ^ e`. -/
def mkFin (m e : Int) : JSNum :=
  if m = 0 then .fin 0 0
  else if 0 ≤ e then .fin (m * tpow e.toNat) 0
  else
    let p := stripTwos 4200 m e
    .fin p.1 p.2

def ofInt (n : Int) : JSNum := .fin n 0

def ofNat (n : Nat) : JSNum := .fin n 0

/-- Value comparison scaled to a common exponent: `m₁ * 2 ^ e₁` versus
`m₂ * 2 ^ e₂` compares as `m₁ * 2 ^ (e₁ - e)` versus `m₂ * 2 ^ (e₂ - e)`
at `e = min e₁ e₂`. -/
def finCmpLt (m1 e1 m2 e2 : Int) : Bool :=
  let e := min e1 e2
  m1 * tpow (e1 - e).toNat < m2 * tpow (e2 - e).toNat

/-- JavaScript `<` on numbers; any comparison involving NaN is false. -/
def lt : JSNum → JSNum → Bool
  | .fin m1 e1, .fin m2 e2 => finCmpLt m1 e1 m2 e2
  | .fin _ _, .inf neg => !neg
  | .inf neg, .fin _ _ => neg
  | .inf a, .inf b => a && !b
  | _, _ => false

/-- JavaScript `>` on numbers (`a > b` behaves as `b < a`, including the
NaN cases). -/
def gt (a b : JSNum) : Bool := lt b a

/-- JavaScript `===` on numbers; NaN is equal to nothing, all
representations of the same dyadic value are equal. -/
def eqv : JSNum → JSNum → Bool
  | .fin m1 e1, .fin m2 e2 =>
    let e := min e1 e2
    m1 * tpow (e1 - e).toNat = m2 * tpow (e2 - e).toNat
  | .inf a, .inf b => a == b
  | _, _ => false

/-- `Number.isInteger`. -/
def isInteger : JSNum → Bool
  | .fin m e => if 0 ≤ e then true else m % tpow (-e).toNat = 0
  | _ => false

/-- `Number.isNaN`. -/
def isNaN : JSNum → Bool
  | .nan => true
  | _ => false

/-- The integer value of an integral `JSNum` (0 on non-integers, which the
callers below rule out first). -/
def toInt : JSNum → Int
  | .fin m e => if 0 ≤ e then m * tpow e.toNat else m / tpow (-e).toNat
  | _ => 0

/-- Addition (used for the signed wire conversions `value + 2 ^ n` and
`value - 2 ^ n`); NaN propagates, infinities absorb. -/
def add : JSNum → JSNum → JSNum
  | .fin m1 e1, .fin m2 e2 =>
    let e := min e1 e2
    mkFin (m1 * tpow (e1 - e).toNat + m2 * tpow (e2 - e).toNat) e
  | .inf a, .fin _ _ => .inf a
  | .fin _ _, .inf b => .inf b
  | .inf a, .inf b => if a = b then .inf a else .nan
  | _, _ => .nan

end JSNum

/-- Two's-complement read of `w`-bit bits (as `DataView.getIntN`). -/
def toSigned (w : Nat) (bits : Nat) : Int :=
  if bits < 2 ^ (w - 1) then (bits : Int) else (bits : Int) - tpow w

/-- Two's-complement write of an integer into `w` bits (as
`DataView.setIntN`). -/
def toUnsign (w : Nat) (v : Int) : Nat := (v % tpow w).toNat

/-- Floor of the base-two logarithm, fuel-bounded structural recursion
(`Nat.log2` itself is compiled by well-founded recursion, which the kernel
does not evaluate). -/
def natLog2F : Nat → Nat → Nat
  | 0, _ => 0
  | fuel + 1, n => if n ≤ 1 then 0 else natLog2F fuel (n / 2) + 1

/-- `natLog2F` with fuel covering every number below `2 ^ 4200`. -/
def natLog2 (n : Nat) : Nat := natLog2F 4200 n

/-- Round a dyadic rational `m * 2 ^ e` (with `m ≥ 0`) to the nearest
integer, ties to even — the IEEE-754 rounding used by `DataView`
float stores. -/
def rne (m : Int) (e : Int) : Int :=
  if 0 ≤ e then m * tpow e.toNat
  else
    let d : Int := tpow (-e).toNat
    let q := m / d
    let r := m % d
    if 2 * r < d then q
    else if d < 2 * r then q + 1
    else if q % 2 = 0 then q else q + 1

/-- IEEE-754 binary encoding of a nonzero finite `|value| = m * 2 ^ e`
(`m > 0`), parameterized by mantissa bits `mb`, exponent bias, and maximum
exponent `emax`; returns the exponent/mantissa fields.  Subnormals and
overflow to infinity follow the standard. -/
def ieeeFields (mb : Nat) (bias emax : Int) (m e : Int) : Nat × Nat :=
  let E : Int := (natLog2 m.toNat : Int) + e
  if E < 1 - bias then
    -- subnormal range: scale to 2 ^ (1 - bias - mb)
    let mant := rne m (e - (1 - bias - mb))
    -- a mantissa that rounds up to 2 ^ mb lands exactly on the smallest
    -- normal, which the field encoding below also represents correctly
    (0, mant.toNat)
  else
    let mant := rne m (e - (E - mb))
    let E := if mant = tpow (mb + 1) then E + 1 else E
    let mant := if mant = tpow (mb + 1) then 2 ^ mb else mant.toNat
    if emax < E then ((2 * emax + 1 + bias).toNat, 0) -- overflow: infinity
    else ((E + bias).toNat, mant - 2 ^ mb)

/-- The 32 bits `DataView.setFloat32` writes for a JS number (binary32,
round to nearest, ties to even; NaN is written as the canonical quiet NaN,
which is what major engines store). -/
def f32bits : JSNum → Nat
  | .nan => 0x7fc00000
  | .inf neg => (if neg then 1 else 0) * 2 ^ 31 + 0x7f800000
  | .fin m e =>
    if m = 0 then 0
    else
      let s : Nat := if m < 0 then 1 else 0
      let p := ieeeFields 23 127 127 m.natAbs e
      if 254 < p.1 then s * 2 ^ 31 + 0x7f800000
      else s * 2 ^ 31 + p.1 * 2 ^ 23 + p.2

/-- The number `DataView.getFloat32` reads from 32 bits. -/
def decodeF32 (bits : Nat) : JSNum :=
  let s : Nat := bits / 2 ^ 31 % 2
  let e : Nat := bits / 2 ^ 23 % 2 ^ 8
  let m : Nat := bits % 2 ^ 23
  if e = 255 then (if m = 0 then .inf (s == 1) else .nan)
  else
    let sign : Int := if s == 1 then -1 else 1
    if e = 0 then JSNum.mkFin (sign * (m : Int)) (-149)
    else JSNum.mkFin (sign * ((2 ^ 23 + m : Nat) : Int)) ((e : Int) - 150)

/-- The 64 bits `DataView.setFloat64` writes for a JS number. -/
def f64bits : JSNum → Nat
  | .nan => 0x7ff8000000000000
  | .inf neg => (if neg then 1 else 0) * 2 ^ 63 + 0x7ff0000000000000
  | .fin m e =>
    if m = 0 then 0
    else
      let s : Nat := if m < 0 then 1 else 0
      let p := ieeeFields 52 1023 1023 m.natAbs e
      if 2046 < p.1 then s * 2 ^ 63 + 0x7ff0000000000000
      else s * 2 ^ 63 + p.1 * 2 ^ 52 + p.2

/-- The number `DataView.getFloat64` reads from 64 bits. -/
def decodeF64 (bits : Nat) : JSNum :=
  let s : Nat := bits / 2 ^ 63 % 2
  let e : Nat := bits / 2 ^ 52 % 2 ^ 11
  let m : Nat := bits % 2 ^ 52
  if e = 2047 then (if m = 0 then .inf (s == 1) else .nan)
  else
    let sign : Int := if s == 1 then -1 else 1
    if e = 0 then JSNum.mkFin (sign * (m : Int)) (-1074)
    else JSNum.mkFin (sign * ((2 ^ 52 + m : Nat) : Int)) ((e : Int) - 1075)

/-- JavaScript abstract operation ToInt32 on an integral JS number (the
conversion `DataView.setInt32` applies to its argument); non-finite values
map to 0. -/
def toInt32js (x : JSNum) : Int := toSigned 32 (toUnsign 32 x.toInt)

/-- `BigInt(x)` on a JS number: throws unless `x` is an integer. -/
def jsBigInt (x : JSNum) : Except CMErr Int :=
  if x.isInteger then .ok x.toInt else .error .typeErr

/-- `Number.MAX_VALUE` as an integer (the value of
`BigInts.MAX_VALUE_AS_BIGINT`). -/
def maxValueInt : Int := (tpow 53 - 1) * tpow 971

/-- `BigInts.asNumber`: fails above `Number.MAX_VALUE`.  `Number(bigint)`
rounds to the nearest double above `2 ^ 53`; the embedding keeps the exact
value (the call sites below only reach it with values below `2 ^ 32`). -/
def asNumber (v : Int) : Except CMErr JSNum :=
  if maxValueInt < v then .error .bigIntTooBig else .ok (JSNum.ofInt v)

/-- `WasmTypes.reinterpret_f32_as_i32`: store as float32, read as signed
int32. -/
def reinterpret_f32_as_i32 (x : JSNum) : JSNum :=
  JSNum.ofInt (toSigned 32 (f32bits x % 2 ^ 32))

/-- `WasmTypes.reinterpret_i32_as_f32`: store as int32, read as float32. -/
def reinterpret_i32_as_f32 (x : JSNum) : JSNum :=
  decodeF32 (toUnsign 32 (toInt32js x))

/-- `WasmTypes.convert_i32_to_i64`: `BigInt(i32)`. -/
def convert_i32_to_i64 (x : JSNum) : Except CMErr Int := jsBigInt x

/-- `WasmTypes.convert_i64_to_i32`: `BigInts.asNumber`. -/
def convert_i64_to_i32 (v : Int) : Except CMErr JSNum := asNumber v

/-- `WasmTypes.reinterpret_f32_as_i64`. -/
def reinterpret_f32_as_i64 (x : JSNum) : Except CMErr Int :=
  jsBigInt (reinterpret_f32_as_i32 x)

/-- `WasmTypes.reinterpret_i64_as_f32`. -/
def reinterpret_i64_as_f32 (v : Int) : Except CMErr JSNum := do
  let n ← convert_i64_to_i32 v
  return reinterpret_i32_as_f32 n

/-- `WasmTypes.reinterpret_f64_as_i64`: store as float64, read as signed
int64. -/
def reinterpret_f64_as_i64 (x : JSNum) : Int :=
  toSigned 64 (f64bits x % 2 ^ 64)

/-- `WasmTypes.reinterpret_i64_as_f64`: store as int64, read as
float64. -/
def reinterpret_i64_as_f64 (v : Int) : JSNum :=
  decodeF64 (toUnsign 64 v)

/-- A JS number survives the float32 bit reinterpretation round trip.
This holds exactly for (canonically represented) values that are
representable in binary32; it is decidable and evaluated on concrete
inputs. -/
def RepF32 (x : JSNum) : Prop :=
  reinterpret_i32_as_f32 (reinterpret_f32_as_i32 x) = x

/-- A JS number survives the float64 bit reinterpretation round trip;
holds exactly for canonically represented binary64 values, i.e. for every
value a real JS engine can hold. -/
def RepF64 (x : JSNum) : Prop :=
  reinterpret_i64_as_f64 (reinterpret_f64_as_i64 x) = x

instance (x : JSNum) : Decidable (RepF32 x) := by
  unfold RepF32; infer_instance

instance (x : JSNum) : Decidable (RepF64 x) := by
  unfold RepF64; infer_instance

/-- The four machine types of the flat ABI (`wasmTypeName`). -/
inductive WTN where
  | i32 | i64 | f32 | f64
deriving DecidableEq

/-- A value in a flat slot (`wasmType`): a JS number for `i32`, `f32`,
`f64` slots, a JS bigint for `i64` slots. -/
inductive WasmVal where
  | num (v : JSNum)
  | big (v : Int)
deriving DecidableEq

mutual
/-- Native (JavaScript-side) values produced and consumed by the type
descriptors.  Strings are their UTF-16 code unit sequences; `variantV`
models a `JVariantCase` object (`payload = undef` when the `value`
property is `undefined`); `optionV` models an `OptionImpl` instance. -/
inductive JVal where
  | num (v : JSNum)
  | big (v : Int)
  | boolV (b : Bool)
  | str (units : List Nat)
  | tup (vs : JValList)
  | variantV (idx : Nat) (payload : JVal)
  | optionV (isSome : Bool) (payload : JVal)
  | undef
deriving DecidableEq

inductive JValList where
  | nil
  | cons (hd : JVal) (tl : JValList)
deriving DecidableEq
end

mutual
/-- The family of type descriptors the round-trip claims quantify over:
the primitive scalars, `char`, `EnumType`, `TupleType`, `OptionType` and
`VariantType` (which also realizes `ResultType`; the `kind` tag does not
affect any operation).  The memory-header types (`wstring`, lists) are
modeled separately below. -/
inductive ValTy where
  | boolT | u8T | u16T | u32T | u64T | s8T | s16T | s32T | s64T
  | f32T | f64T | charT
  | enumT (cases : Nat)
  | tupleT (fields : ValTyList)
  | optionT (t : ValTy)
  | variantT (cases : VCaseList)
deriving DecidableEq

inductive ValTyList where
  | nil
  | cons (hd : ValTy) (tl : ValTyList)
deriving DecidableEq

/-- A `VariantType` case list; `consNone` is a case whose payload type is
`undefined`. -/
inductive VCaseList where
  | nil
  | consNone (tl : VCaseList)
  | consSome (t : ValTy) (tl : VCaseList)
deriving DecidableEq
end

def ValTyList.length : ValTyList → Nat
  | .nil => 0
  | .cons _ tl => tl.length + 1

def VCaseList.length : VCaseList → Nat
  | .nil => 0
  | .consNone tl => tl.length + 1
  | .consSome _ tl => tl.length + 1

/-- String encodings recognized by `Options.encoding`. -/
inductive Encoding where
  | utf8 | utf16 | latin1utf16
deriving DecidableEq

/-- The `Options` context (`keepOption` defaults to false at the call
sites modeled here). -/
structure Opts where
  encoding : Encoding
  keepOption : Bool
deriving DecidableEq

/-- `align(ptr, alignment) = Math.ceil(ptr / alignment) * alignment`. -/
def alignUp (p a : Nat) : Nat := (p + a - 1) / a * a

/-- `VariantType.joinFlatType`. -/
def joinFlatType (a b : WTN) : WTN :=
  if a = b then a
  else if (a = .i32 ∧ b = .f32) ∨ (a = .f32 ∧ b = .i32) then .i32
  else .i64

/-- One step of `VariantType.flatTypes`: join a case's flat types into the
accumulated payload slots, extending with the case's extra slots. -/
def joinPayload : List WTN → List WTN → List WTN
  | [], ws => ws
  | fs, [] => fs
  | f :: fs, w :: ws => joinFlatType f w :: joinPayload fs ws

/-- Zero padding pushed for unused flat slots (`0n` for `i64`, `0`
otherwise), as in `VariantType.lowerFlat` and `OptionType.lowerFlat`. -/
def padZeros : List WTN → List WasmVal
  | [] => []
  | .i64 :: ts => .big 0 :: padZeros ts
  | _ :: ts => .num (.fin 0 0) :: padZeros ts

/-- One lowering coercion step of `VariantType.lowerFlat` (have → want);
pairs outside the table pass through unchanged, a JS bigint where the
reinterpret routines need a number would throw. -/
def coerce1Lower : WTN → WTN → WasmVal → Except CMErr WasmVal
  | .f32, .i32, .num x => .ok (.num (reinterpret_f32_as_i32 x))
  | .i32, .i64, .num x => do .ok (.big (← convert_i32_to_i64 x))
  | .f32, .i64, .num x => do .ok (.big (← reinterpret_f32_as_i64 x))
  | .f64, .i64, .num x => .ok (.big (reinterpret_f64_as_i64 x))
  | .f32, .i32, _ => .error .typeErr
  | .i32, .i64, _ => .error .typeErr
  | .f32, .i64, _ => .error .typeErr
  | .f64, .i64, _ => .error .typeErr
  | _, _, v => .ok v

/-- The coercion pairs `VariantType.lowerFlat` walks over the payload
(have = the case's own slot type, want = the joined slot type). -/
def coerce1LowerList : List WTN → List WTN → List WasmVal → Except CMErr (List WasmVal)
  | _, _, [] => .ok []
  | h :: hs, w :: ws, v :: vs => do
      let v2 ← coerce1Lower h w v
      let rest ← coerce1LowerList hs ws vs
      .ok (v2 :: rest)
  | _, _, vs => .ok vs

/-- One `CoerceValueIter.next` coercion (have = the joined slot type in
the stream, want = the case's slot type). -/
def coerce1Lift : WTN → WTN → WasmVal → Except CMErr WasmVal
  | .i32, .f32, .num x => .ok (.num (reinterpret_i32_as_f32 x))
  | .i64, .i32, .big x => do .ok (.num (← convert_i64_to_i32 x))
  | .i64, .f32, .big x => do .ok (.num (← reinterpret_i64_as_f32 x))
  | .i64, .f64, .big x => .ok (.num (reinterpret_i64_as_f64 x))
  | .i32, .f32, _ => .error .typeErr
  | .i64, .i32, _ => .error .typeErr
  | .i64, .f32, _ => .error .typeErr
  | .i64, .f64, _ => .error .typeErr
  | _, _, v => .ok v

/-- `CoerceValueIter` over the list view of the flat stream: the wrapper
transforms each pulled slot by the have/want pair at its index and is the
identity beyond `want.length` (there `wantFlatTypes[index]` is undefined
and no branch of `next` matches).  The transformation is applied eagerly
to the list here; a lifter that consumes exactly `want.length` slots — 
which the round-trip theorem proves — observes the same values as with
the source's lazy iterator. -/
def coerce1LiftList : List WTN → List WTN → List WasmVal → Except CMErr (List WasmVal)
  | _, [], vs => .ok vs
  | [], _, vs => .ok vs
  | _ :: _, _ :: _, [] => .ok []
  | h :: hs, w :: ws, v :: vs => do
      let v2 ← coerce1Lift h w v
      let rest ← coerce1LiftList hs ws vs
      .ok (v2 :: rest)

/-- Read one value from the flat iterator.  An exhausted JS iterator
yields `undefined`, which every numeric validation below rejects; the
embedding reports it as a type error uniformly. -/
def iterNext : List WasmVal → Except CMErr (WasmVal × List WasmVal)
  | [] => .error .typeErr
  | v :: vs => .ok (v, vs)

/-- The shared body of `$u8.liftFlat`, `$u16.liftFlat`, `$u32.liftFlat`:
`value < 0 || value > HIGH || !Number.isInteger(value)` (a bigint in the
slot fails the `Number.isInteger` check). -/
def uLiftFlat (hi : Int) (vals : List WasmVal) : Except CMErr (JSNum × List WasmVal) := do
  let (v, rest) ← iterNext vals
  match v with
  | .num x =>
    if x.lt (.fin 0 0) || x.gt (.fin hi 0) || !x.isInteger then .error .validation
    else .ok (x, rest)
  | .big _ => .error .validation

/-- The shared body of `$u8.lowerFlat`, `$u16.lowerFlat`,
`$u32.lowerFlat`. -/
def uLowerFlat (hi : Int) (x : JSNum) : Except CMErr (List WasmVal) :=
  if x.lt (.fin 0 0) || x.gt (.fin hi 0) || !x.isInteger then .error .validation
  else .ok [.num x]

/-- The shared body of `$s8.liftFlat`, `$s16.liftFlat`, `$s32.liftFlat`:
validate the unsigned range, then reinterpret values above the positive
half-range by subtracting `2 ^ n`. -/
def sLiftFlat (uhi shi : Int) (vals : List WasmVal) : Except CMErr (JSNum × List WasmVal) := do
  let (v, rest) ← iterNext vals
  match v with
  | .num x =>
    if x.lt (.fin 0 0) || x.gt (.fin uhi 0) || !x.isInteger then .error .validation
    else if x.gt (.fin shi 0) then .ok (x.add (.fin (-(uhi + 1)) 0), rest)
    else .ok (x, rest)
  | .big _ => .error .validation

/-- The shared body of `$s8.lowerFlat`, `$s16.lowerFlat`,
`$s32.lowerFlat`: validate the signed range, encode negatives by adding
`2 ^ n`. -/
def sLowerFlat (lo hi : Int) (x : JSNum) : Except CMErr (List WasmVal) :=
  if x.lt (.fin lo 0) || x.gt (.fin hi 0) || !x.isInteger then .error .validation
  else if x.lt (.fin 0 0) then .ok [.num (x.add (.fin (hi - lo + 1) 0))]
  else .ok [.num x]

/-- `$u64.liftFlat`: only `value < 0n` is checked.  A number in an `i64`
slot is a dynamic type confusion, reported as a type error. -/
def u64LiftFlat (vals : List WasmVal) : Except CMErr (Int × List WasmVal) := do
  let (v, rest) ← iterNext vals
  match v with
  | .big x => if x < 0 then .error .validation else .ok (x, rest)
  | .num _ => .error .typeErr

/-- `$u64.lowerFlat`: only `value < 0n` is checked (no upper bound). -/
def u64LowerFlat (x : Int) : Except CMErr (List WasmVal) :=
  if x < 0 then .error .validation else .ok [.big x]

/-- `$s64.liftFlat`. -/
def s64LiftFlat (vals : List WasmVal) : Except CMErr (Int × List WasmVal) := do
  let (v, rest) ← iterNext vals
  match v with
  | .big x =>
    if x < 0 then .error .validation
    else if x ≤ tpow 63 - 1 then .ok (x, rest)
    else .ok (x - tpow 64, rest)
  | .num _ => .error .typeErr

/-- `$s64.lowerFlat`. -/
def s64LowerFlat (x : Int) : Except CMErr (List WasmVal) :=
  if x < -tpow 63 ∨ tpow 63 - 1 < x then .error .validation
  else if x < 0 then .ok [.big (x + tpow 64)]
  else .ok [.big x]

/-- `bool.liftFlat`: `value < 0` fails, otherwise `value !== 0`.  A
bigint in the slot passes (`0n !== 0` is true in JS) — unreachable from a
well-typed adapter and modeled faithfully. -/
def boolLiftFlat (vals : List WasmVal) : Except CMErr (Bool × List WasmVal) := do
  let (v, rest) ← iterNext vals
  match v with
  | .num x =>
    if x.lt (.fin 0 0) then .error .validation
    else .ok (!(x.eqv (.fin 0 0)), rest)
  | .big x => if x < 0 then .error .validation else .ok (true, rest)

/-- `float32` range bounds: `±3.4028234663852886e+38 = ±(2^24 − 1)·2^104`. -/
def f32Low : JSNum := .fin (-(tpow 24 - 1)) 104

def f32High : JSNum := .fin (tpow 24 - 1) 104

/-- The `$float32` NaN sentinel `0x7fc00000`, pushed and compared as a
plain number. -/
def f32NaN : JSNum := .fin 2143289344 0

/-- `float64` range bounds `±Number.MAX_VALUE = ±(2^53 − 1)·2^971`. -/
def f64Low : JSNum := .fin (-(tpow 53 - 1)) 971

def f64High : JSNum := .fin (tpow 53 - 1) 971

/-- The `$float64` NaN sentinel `0x7ff8000000000000`, as a plain
number. -/
def f64NaN : JSNum := .fin 9221120237041090560 0

/-- `$float32.liftFlat`: range check (false for NaN, so NaN passes), then
map the exact sentinel value to NaN. -/
def f32LiftFlat (vals : List WasmVal) : Except CMErr (JSNum × List WasmVal) := do
  let (v, rest) ← iterNext vals
  match v with
  | .num x =>
    if x.lt f32Low || x.gt f32High then .error .validation
    else .ok ((if x.eqv f32NaN then .nan else x), rest)
  | .big _ => .error .typeErr

/-- `$float32.lowerFlat`: range check, then push the sentinel for NaN. -/
def f32LowerFlat (x : JSNum) : Except CMErr (List WasmVal) :=
  if x.lt f32Low || x.gt f32High then .error .validation
  else .ok [.num (if x.isNaN then f32NaN else x)]

/-- `$float64.liftFlat`. -/
def f64LiftFlat (vals : List WasmVal) : Except CMErr (JSNum × List WasmVal) := do
  let (v, rest) ← iterNext vals
  match v with
  | .num x =>
    if x.lt f64Low || x.gt f64High then .error .validation
    else .ok ((if x.eqv f64NaN then .nan else x), rest)
  | .big _ => .error .typeErr

/-- `$float64.lowerFlat`. -/
def f64LowerFlat (x : JSNum) : Except CMErr (List WasmVal) :=
  if x.lt f64Low || x.gt f64High then .error .validation
  else .ok [.num (if x.isNaN then f64NaN else x)]

/-- `str.codePointAt(0)` on a UTF-16 code unit sequence. -/
def codePointAt0 : List Nat → Nat
  | [] => 0
  | [u] => u
  | u :: v :: _ =>
    if 0xD800 ≤ u ∧ u ≤ 0xDBFF ∧ 0xDC00 ≤ v ∧ v ≤ 0xDFFF then
      0x10000 + (u - 0xD800) * 0x400 + (v - 0xDC00)
    else u

/-- `$wchar.asCodePoint`: requires a length-1 string, then checks
`!(code <= 0xD7FF || (0xD800 <= code && code <= 0x10FFFF))` — note the
condition as written holds for every possible `codePointAt` result. -/
def asCodePoint (units : List Nat) : Except CMErr Nat :=
  if units.length ≠ 1 then .error .invalidCodePoint
  else
    let code := codePointAt0 units
    if ¬(code ≤ 0xD7FF ∨ (0xD800 ≤ code ∧ code ≤ 0x10FFFF)) then .error .invalidCodePoint
    else .ok code

/-- `String.fromCodePoint` for a single code point (UTF-16 units). -/
def fromCodePointUnits (code : Nat) : List Nat :=
  if code ≤ 0xFFFF then [code]
  else [0xD800 + (code - 0x10000) / 0x400, 0xDC00 + (code - 0x10000) % 0x400]

/-- `$wchar.fromCodePoint`: rejects values at or above 0x110000 and the
surrogate range, then builds the string. -/
def fromCodePoint (code : Nat) : Except CMErr (List Nat) :=
  if 0x110000 ≤ code ∨ (0xD800 ≤ code ∧ code ≤ 0xDFFF) then .error .invalidCodePoint
  else .ok (fromCodePointUnits code)

/-- Equality of `Except` results is decidable (needed to evaluate the
concrete runs below with `decide`). -/
instance {e a : Type} [DecidableEq e] [DecidableEq a] : DecidableEq (Except e a) := fun x y =>
  match x, y with
  | .ok v, .ok w =>
    match decEq v w with
    | isTrue h => isTrue (by rw [h])
    | isFalse h => isFalse (by intro hh; cases hh; exact h rfl)
  | .error v, .error w =>
    match decEq v w with
    | isTrue h => isTrue (by rw [h])
    | isFalse h => isFalse (by intro hh; cases hh; exact h rfl)
  | .ok _, .error _ => isFalse (by intro hh; cases hh)
  | .error _, .ok _ => isFalse (by intro hh; cases hh)

/-- Ceiling of the base-two logarithm (0 for `n ≤ 1`). -/
def ceilLog2 (n : Nat) : Nat := if n ≤ 1 then 0 else natLog2 (n - 1) + 1

/-- The three discriminant types a variant or enum can use (`u8`, `u16`,
`u32`). -/
inductive DiscT where
  | d8 | d16 | d32
deriving DecidableEq

/-- The inclusive upper bound of a discriminant type's range. -/
def DiscT.cap : DiscT → Int
  | .d8 => 255
  | .d16 => 65535
  | .d32 => 4294967295

/-- Size in bytes (equal to the alignment for these types). -/
def DiscT.bytes : DiscT → Nat
  | .d8 => 1
  | .d16 => 2
  | .d32 => 4

/-- `VariantType.discriminantType` and `EnumType.discriminantType`:
`switch (Math.ceil(Math.log2(cases) / 8)) { case 0, 1: u8; 2: u16;
3: u32 }`, throwing `Too many cases` otherwise.  For `cases = 0` the JS
expression is `-Infinity` and falls through; for `cases ≥ 1`, exact real
arithmetic gives `ceil(log2 c / 8) = ceil(ceil(log2 c) / 8)` — the two
differ only if an integer multiple of 8 lies strictly between `log2 c`
and `ceil(log2 c)`, impossible — and `Math.log2` is within 1 ulp of the
exact value, which cannot move the ceiling at any byte boundary (the
nearest boundary values `2^16`, `2^24` are hit exactly, and `2^24 + 1`
has `log2 ≈ 24.000000086`, 12 orders of magnitude above 1 ulp). -/
def discriminantType (cases : Nat) : Except CMErr DiscT :=
  if cases = 0 then .error .tooManyCases
  else
    match (ceilLog2 cases + 7) / 8 with
    | 0 => .ok .d8
    | 1 => .ok .d8
    | 2 => .ok .d16
    | 3 => .ok .d32
    | _ => .error .tooManyCases

/-- Total variant of `discriminantType` used by the size and alignment
attributes; for case counts on which construction throws (so the
descriptor cannot exist) any value works, `d8` is chosen. -/
def discD (n : Nat) : DiscT :=
  match discriminantType n with
  | .ok d => d
  | .error _ => .d8

/-- `EnumType.assertRange`: `value < 0 || value > this.cases` (note the
strict `>`: the value `cases` itself passes). -/
def enumAssertRange (cases : Nat) (x : JSNum) : Except CMErr JSNum :=
  if x.lt (.fin 0 0) || x.gt (.fin (cases : Int) 0) then .error .enumOutOfRange
  else .ok x

/-- Linear memory: a byte function plus the bump pointer of the
allocator.  The `Memory` interface is guest-provided; `alloc` is modeled
from the spec (§3 Memory): it yields an `alignment`-aligned pointer with
`size` fresh bytes, here the aligned bump pointer.  The buffer is
unbounded (no `RangeError` on out-of-bounds views). -/
structure Mem where
  data : Nat → Nat
  allocPtr : Nat

def Mem.writeByte (m : Mem) (p v : Nat) : Mem :=
  { m with data := fun i => if i = p then v % 256 else m.data i }

/-- Write `w` bytes little-endian. -/
def writeLE : Mem → Nat → Nat → Nat → Mem
  | m, _, 0, _ => m
  | m, p, w + 1, v => writeLE (m.writeByte p (v % 256)) (p + 1) w (v / 256)

/-- Read `w` bytes little-endian. -/
def readLE (m : Mem) : Nat → Nat → Nat
  | _, 0 => 0
  | p, w + 1 => m.data p + 256 * readLE m (p + 1) w

/-- Read `w` bytes big-endian — what `DataView.getUintN` does when the
`littleEndian` argument is omitted. -/
def readBE (m : Mem) : Nat → Nat → Nat
  | _, 0 => 0
  | p, w + 1 => m.data p * 256 ^ w + readBE m (p + 1) w

/-- `DataView.getUint32(p, littleEndian)`. -/
def getUint32 (m : Mem) (p : Nat) (littleEndian : Bool) : Nat :=
  if littleEndian then readLE m p 4 else readBE m p 4

/-- `Memory.alloc(align, size)`, modeled from the spec as a bump
allocator: an aligned pointer with `size` fresh bytes. -/
def Mem.alloc (m : Mem) (a sz : Nat) : Nat × Mem :=
  let p := alignUp m.allocPtr a
  (p, { m with allocPtr := p + sz })

/-- `DataView.setUintN`/`setIntN` on an integral JS number: both write
the same two's-complement bytes, little-endian. -/
def storeNum (m : Mem) (p bytes : Nat) (x : JSNum) : Mem :=
  writeLE m p bytes (toUnsign (8 * bytes) x.toInt)

/-- `OptionType.asOptionValue`: returns (isSome, payload).  An
`OptionImpl` value requires `keepOption`; without it, `undefined` means
`none` and anything else is the payload of `some`. -/
def asOptionValue (o : Opts) : JVal → Except CMErr (Bool × JVal)
  | .optionV s p => if !o.keepOption then .error .optionMismatch else .ok (s, p)
  | v =>
    if o.keepOption then .error .optionMismatch
    else if v = .undef then .ok (false, .undef)
    else .ok (true, v)

/-- Array indexing `this.cases[caseIndex]` needs the (validated, integral)
discriminant as a `Nat`. -/
def jsToIdx (x : JSNum) : Except CMErr Nat :=
  if x.isInteger ∧ 0 ≤ x.toInt then .ok x.toInt.toNat else .error .typeErr

mutual
/-- The `flatTypes` attribute of each descriptor.  For enums and variants
the discriminant contributes `['i32']` whichever of `u8`/`u16`/`u32` it
is. -/
def ValTy.flatTypes : ValTy → List WTN
  | .boolT | .u8T | .u16T | .u32T | .s8T | .s16T | .s32T | .charT => [.i32]
  | .u64T | .s64T => [.i64]
  | .f32T => [.f32]
  | .f64T => [.f64]
  | .enumT _ => [.i32]
  | .tupleT fs => ValTy.flatTypesList fs
  | .optionT t => .i32 :: t.flatTypes
  | .variantT cs => .i32 :: ValTy.variantPayloadFlat [] cs

/-- `BaseRecordType.flatTypes`: concatenation of the fields. -/
def ValTy.flatTypesList : ValTyList → List WTN
  | .nil => []
  | .cons t ts => t.flatTypes ++ ValTy.flatTypesList ts

/-- The payload part of `VariantType.flatTypes`: fold the slot-wise join
over the typed cases (each case's own `wantFlatTypes` is exactly its
type's `flatTypes`, since the loop pushes `want` on both branches). -/
def ValTy.variantPayloadFlat : List WTN → VCaseList → List WTN
  | acc, .nil => acc
  | acc, .consNone tl => ValTy.variantPayloadFlat acc tl
  | acc, .consSome t tl => ValTy.variantPayloadFlat (joinPayload acc t.flatTypes) tl
end

mutual
/-- The `alignment` attribute of each descriptor. -/
def ValTy.alignmentV : ValTy → Nat
  | .boolT | .u8T | .s8T => 1
  | .u16T | .s16T => 2
  | .u32T | .s32T | .f32T | .charT => 4
  | .u64T | .s64T | .f64T => 8
  | .enumT n => (discD n).bytes
  | .tupleT fs => ValTy.alignmentList fs
  | .optionT t => max 1 t.alignmentV
  | .variantT cs => max (discD cs.length).bytes (ValTy.maxCaseAlignment cs)

/-- `BaseRecordType.alignment`: maximum over the fields, starting at 1. -/
def ValTy.alignmentList : ValTyList → Nat
  | .nil => 1
  | .cons t ts => max t.alignmentV (ValTy.alignmentList ts)

/-- `VariantType.maxCaseAlignment`. -/
def ValTy.maxCaseAlignment : VCaseList → Nat
  | .nil => 1
  | .consNone tl => ValTy.maxCaseAlignment tl
  | .consSome t tl => max t.alignmentV (ValTy.maxCaseAlignment tl)
end

mutual
/-- The `size` attribute of each descriptor. -/
def ValTy.sizeV : ValTy → Nat
  | .boolT | .u8T | .s8T => 1
  | .u16T | .s16T => 2
  | .u32T | .s32T | .f32T | .charT => 4
  | .u64T | .s64T | .f64T => 8
  | .enumT n => (discD n).bytes
  | .tupleT fs => ValTy.sizeList fs
  | .optionT t => alignUp 1 t.alignmentV + t.sizeV
  | .variantT cs =>
    alignUp (discD cs.length).bytes (ValTy.maxCaseAlignment cs) + ValTy.maxCaseSize cs

/-- `BaseRecordType.size`: the loop body is
`align(result, field.type.alignment); result += field.type.size;` — the
value of the `align` call is discarded (not assigned back to `result`),
so the computed size is the plain sum of the field sizes without any
alignment padding. -/
def ValTy.sizeList : ValTyList → Nat
  | .nil => 0
  | .cons t ts => t.sizeV + ValTy.sizeList ts

/-- `VariantType.maxCaseSize`. -/
def ValTy.maxCaseSize : VCaseList → Nat
  | .nil => 0
  | .consNone tl => ValTy.maxCaseSize tl
  | .consSome t tl => max t.sizeV (ValTy.maxCaseSize tl)
end

mutual
/-- `lowerFlat` of each descriptor in the family, returning the values
pushed onto the (append-only) sink.  A native value of the wrong dynamic
type for the descriptor is a type error (the TypeScript signatures
exclude it). -/
def ValTy.lowerFlat : ValTy → Opts → JVal → Except CMErr (List WasmVal)
  | .boolT, _, .boolV b => .ok [.num (.fin (if b then 1 else 0) 0)]
  | .u8T, _, .num x => uLowerFlat 255 x
  | .u16T, _, .num x => uLowerFlat 65535 x
  | .u32T, _, .num x => uLowerFlat 4294967295 x
  | .u64T, _, .big v => u64LowerFlat v
  | .s8T, _, .num x => sLowerFlat (-128) 127 x
  | .s16T, _, .num x => sLowerFlat (-32768) 32767 x
  | .s32T, _, .num x => sLowerFlat (-2147483648) 2147483647 x
  | .s64T, _, .big v => s64LowerFlat v
  | .f32T, _, .num x => f32LowerFlat x
  | .f64T, _, .num x => f64LowerFlat x
  | .charT, _, .str units => do
      let code ← asCodePoint units
      uLowerFlat 4294967295 (.fin (code : Int) 0)
  | .enumT n, _, .num x => do
      let d ← discriminantType n
      uLowerFlat d.cap x
  | .tupleT fs, o, .tup vs => ValTy.lowerFields fs o vs
  | .optionT t, o, v => do
      let p ← asOptionValue o v
      let disc ← uLowerFlat 255 (.fin (if p.1 then 1 else 0) 0)
      if p.1 then do
        let pl ← t.lowerFlat o p.2
        .ok (disc ++ pl)
      else
        .ok (disc ++ padZeros t.flatTypes)
  | .variantT cs, o, .variantV i p => do
      let d ← discriminantType cs.length
      let disc ← uLowerFlat d.cap (.fin (i : Int) 0)
      let flats := ValTy.flatTypes (.variantT cs)
      let pl? ← ValTy.walkLower cs i (flats.drop 1) o p
      let pl := pl?.getD []
      -- valuesToFill = flats.length − 1 − pl.length; the padding loop
      -- runs over flats[1 + pl.length ..]
      .ok (disc ++ pl ++ padZeros (flats.drop (1 + pl.length)))
  | _, _, _ => .error .typeErr

/-- `BaseRecordType.lowerFlat` over a tuple: children in declaration
order; surplus native values are ignored by the source loop, a missing
one is `undefined` and a type error. -/
def ValTy.lowerFields : ValTyList → Opts → JValList → Except CMErr (List WasmVal)
  | .nil, _, _ => .ok []
  | .cons _ _, _, .nil => .error .typeErr
  | .cons t ts, o, .cons v vs => do
      let a ← t.lowerFlat o v
      let b ← ValTy.lowerFields ts o vs
      .ok (a ++ b)

/-- The per-case part of `VariantType.lowerFlat` (walking the case list
to `this.cases[variantValue.case]`): no payload values when the case has
no type or the native value is `undefined`; otherwise lower, check the
flat-arity, and coerce each slot from the case's own type to the joined
type.  Indexing past the case list is a crash on `undefined` in the
source. -/
def ValTy.walkLower : VCaseList → Nat → List WTN → Opts → JVal → Except CMErr (Option (List WasmVal))
  | .nil, _, _, _, _ => .error .typeErr
  | .consNone _, 0, _, _, _ => .ok none
  | .consSome t _, 0, joined, o, v =>
      if v = .undef then .ok none
      else do
        let payload ← t.lowerFlat o v
        let haveTs := t.flatTypes
        if payload.length ≠ haveTs.length then .error .mismatchedFlatTypes
        else do
          let payload2 ← coerce1LowerList haveTs joined payload
          .ok (some payload2)
  | .consNone tl, i + 1, joined, o, v => ValTy.walkLower tl i joined o v
  | .consSome _ tl, i + 1, joined, o, v => ValTy.walkLower tl i joined o v
end

mutual
/-- `liftFlat` of each descriptor in the family, consuming values from
the front of the (list view of the) flat iterator and returning the
remaining stream. -/
def ValTy.liftFlat : ValTy → Opts → List WasmVal → Except CMErr (JVal × List WasmVal)
  | .boolT, _, vals => do
      let (b, rest) ← boolLiftFlat vals
      .ok (.boolV b, rest)
  | .u8T, _, vals => do
      let (x, rest) ← uLiftFlat 255 vals
      .ok (.num x, rest)
  | .u16T, _, vals => do
      let (x, rest) ← uLiftFlat 65535 vals
      .ok (.num x, rest)
  | .u32T, _, vals => do
      let (x, rest) ← uLiftFlat 4294967295 vals
      .ok (.num x, rest)
  | .u64T, _, vals => do
      let (v, rest) ← u64LiftFlat vals
      .ok (.big v, rest)
  | .s8T, _, vals => do
      let (x, rest) ← sLiftFlat 255 127 vals
      .ok (.num x, rest)
  | .s16T, _, vals => do
      let (x, rest) ← sLiftFlat 65535 32767 vals
      .ok (.num x, rest)
  | .s32T, _, vals => do
      let (x, rest) ← sLiftFlat 4294967295 2147483647 vals
      .ok (.num x, rest)
  | .s64T, _, vals => do
      let (v, rest) ← s64LiftFlat vals
      .ok (.big v, rest)
  | .f32T, _, vals => do
      let (x, rest) ← f32LiftFlat vals
      .ok (.num x, rest)
  | .f64T, _, vals => do
      let (x, rest) ← f64LiftFlat vals
      .ok (.num x, rest)
  | .charT, _, vals => do
      let (x, rest) ← uLiftFlat 4294967295 vals
      let units ← fromCodePoint x.toInt.toNat
      .ok (.str units, rest)
  | .enumT n, _, vals => do
      let d ← discriminantType n
      let (x, rest) ← uLiftFlat d.cap vals
      let x2 ← enumAssertRange n x
      .ok (.num x2, rest)
  | .tupleT fs, o, vals => do
      let (vs, rest) ← ValTy.liftFields fs o vals
      .ok (.tup vs, rest)
  | .optionT t, o, vals => do
      let (x, rest) ← uLiftFlat 255 vals
      if x.eqv (.fin 0 0) then
        -- `caseIndex === option.none`: read over the value slots
        .ok ((if o.keepOption then .optionV false .undef else .undef),
             rest.drop t.flatTypes.length)
      else do
        let (v, rest2) ← t.liftFlat o rest
        .ok ((if o.keepOption then .optionV true v else v), rest2)
  | .variantT cs, o, vals => do
      let d ← discriminantType cs.length
      let (x, rest) ← uLiftFlat d.cap vals
      let i ← jsToIdx x
      let flats := ValTy.flatTypes (.variantT cs)
      let r ← ValTy.walkLift cs i (flats.drop 1) o rest
      -- valuesToReadOver = flats.length − 1 − (consumed want slots)
      .ok (.variantV i r.1, r.2.2.drop (flats.length - 1 - r.2.1))

/-- `BaseRecordType.liftFlat` over a tuple: children in declaration
order, each consuming its own slots. -/
def ValTy.liftFields : ValTyList → Opts → List WasmVal → Except CMErr (JValList × List WasmVal)
  | .nil, _, vals => .ok (.nil, vals)
  | .cons t ts, o, vals => do
      let (v, rest) ← t.liftFlat o vals
      let (vs, rest2) ← ValTy.liftFields ts o rest
      .ok (.cons v vs, rest2)

/-- The per-case part of `VariantType.liftFlat`: for a typed case, wrap
the stream in the coercion iterator (modeled by `coerce1LiftList` on the
list view) and lift the payload; returns the payload value, the number of
want slots the case declares, and the remaining stream. -/
def ValTy.walkLift : VCaseList → Nat → List WTN → Opts → List WasmVal → Except CMErr (JVal × Nat × List WasmVal)
  | .nil, _, _, _, _ => .error .typeErr
  | .consNone _, 0, _, _, vals => .ok (.undef, 0, vals)
  | .consSome t _, 0, haveTs, o, vals => do
      let wantTs := t.flatTypes
      if haveTs.length < wantTs.length then .error .mismatchedFlatTypes
      else do
        let vals2 ← coerce1LiftList haveTs wantTs vals
        let (v, rest) ← t.liftFlat o vals2
        .ok (v, wantTs.length, rest)
  | .consNone tl, i + 1, h, o, vals => ValTy.walkLift tl i h o vals
  | .consSome _ tl, i + 1, h, o, vals => ValTy.walkLift tl i h o vals
end

mutual
/-- `store` of each descriptor in the family (primitive `DataView` writes
never fail; validation failures come from `asCodePoint`,
`asOptionValue`, and dynamic typing). -/
def ValTy.store : ValTy → Opts → Mem → Nat → JVal → Except CMErr Mem
  | .boolT, _, m, p, .boolV b => .ok (storeNum m p 1 (.fin (if b then 1 else 0) 0))
  | .u8T, _, m, p, .num x => .ok (storeNum m p 1 x)
  | .u16T, _, m, p, .num x => .ok (storeNum m p 2 x)
  | .u32T, _, m, p, .num x => .ok (storeNum m p 4 x)
  | .u64T, _, m, p, .big v => .ok (writeLE m p 8 (toUnsign 64 v))
  | .s8T, _, m, p, .num x => .ok (storeNum m p 1 x)
  | .s16T, _, m, p, .num x => .ok (storeNum m p 2 x)
  | .s32T, _, m, p, .num x => .ok (storeNum m p 4 x)
  | .s64T, _, m, p, .big v => .ok (writeLE m p 8 (toUnsign 64 v))
  | .f32T, _, m, p, .num x => .ok (writeLE m p 4 (f32bits x))
  | .f64T, _, m, p, .num x => .ok (writeLE m p 8 (f64bits x))
  | .charT, _, m, p, .str units => do
      let code ← asCodePoint units
      .ok (storeNum m p 4 (.fin (code : Int) 0))
  | .enumT n, _, m, p, .num x => do
      let d ← discriminantType n
      .ok (storeNum m p d.bytes x)
  | .tupleT fs, o, m, p, .tup vs => ValTy.storeFields fs vs o m p 0
  | .optionT t, o, m, p, v => do
      let q ← asOptionValue o v
      let m2 := storeNum m p 1 (.fin (if q.1 then 1 else 0) 0)
      if q.1 then t.store o m2 (alignUp (p + 1) t.alignmentV) q.2
      else .ok m2
  | .variantT cs, o, m, p, .variantV i pl => do
      let d ← discriminantType cs.length
      let m2 := storeNum m p d.bytes (.fin (i : Int) 0)
      ValTy.walkStore cs i o m2 (p + d.bytes) (ValTy.maxCaseAlignment cs) pl
  | _, _, _, _, _ => .error .typeErr

/-- `BaseRecordType.store` over a tuple, recomputing the `RecordType`/
`TupleType` constructor offsets (round the running offset up to the field
alignment, then advance by the field size). -/
def ValTy.storeFields : ValTyList → JValList → Opts → Mem → Nat → Nat → Except CMErr Mem
  | .nil, _, _, m, _, _ => .ok m
  | .cons _ _, .nil, _, _, _, _ => .error .typeErr
  | .cons t ts, .cons v vs, o, m, base, off => do
      let off2 := alignUp off t.alignmentV
      let m2 ← t.store o m (base + off2) v
      ValTy.storeFields ts vs o m2 base (off2 + t.sizeV)

/-- The per-case part of `VariantType.store`: nothing stored when the
case is untyped or the value is `undefined`; otherwise the payload goes
at the pointer (already past the discriminant) aligned up to
`maxCaseAlignment`. -/
def ValTy.walkStore : VCaseList → Nat → Opts → Mem → Nat → Nat → JVal → Except CMErr Mem
  | .nil, _, _, _, _, _, _ => .error .typeErr
  | .consNone _, 0, _, m, _, _, _ => .ok m
  | .consSome t _, 0, o, m, p, a, v =>
      if v = .undef then .ok m
      else t.store o m (alignUp p a) v
  | .consNone tl, i + 1, o, m, p, a, v => ValTy.walkStore tl i o m p a v
  | .consSome _ tl, i + 1, o, m, p, a, v => ValTy.walkStore tl i o m p a v
end

mutual
/-- `load` of each descriptor in the family. -/
def ValTy.load : ValTy → Opts → Mem → Nat → Except CMErr JVal
  | .boolT, _, m, p => .ok (.boolV (readLE m p 1 != 0))
  | .u8T, _, m, p => .ok (.num (.ofNat (readLE m p 1)))
  | .u16T, _, m, p => .ok (.num (.ofNat (readLE m p 2)))
  | .u32T, _, m, p => .ok (.num (.ofNat (readLE m p 4)))
  | .u64T, _, m, p => .ok (.big (readLE m p 8))
  | .s8T, _, m, p => .ok (.num (.ofInt (toSigned 8 (readLE m p 1))))
  | .s16T, _, m, p => .ok (.num (.ofInt (toSigned 16 (readLE m p 2))))
  | .s32T, _, m, p => .ok (.num (.ofInt (toSigned 32 (readLE m p 4))))
  | .s64T, _, m, p => .ok (.big (toSigned 64 (readLE m p 8)))
  | .f32T, _, m, p => .ok (.num (decodeF32 (readLE m p 4)))
  | .f64T, _, m, p => .ok (.num (decodeF64 (readLE m p 8)))
  | .charT, _, m, p => do
      let units ← fromCodePoint (readLE m p 4)
      .ok (.str units)
  | .enumT n, _, m, p => do
      let d ← discriminantType n
      let x ← enumAssertRange n (.ofNat (readLE m p d.bytes))
      .ok (.num x)
  | .tupleT fs, o, m, p => do
      let vs ← ValTy.loadFields fs o m p 0
      .ok (.tup vs)
  | .optionT t, o, m, p =>
      let c := readLE m p 1
      if c = 0 then .ok (if o.keepOption then .optionV false .undef else .undef)
      else do
        let v ← t.load o m (alignUp (p + 1) (max 1 t.alignmentV))
        .ok (if o.keepOption then .optionV true v else v)
  | .variantT cs, o, m, p => do
      let d ← discriminantType cs.length
      let i := readLE m p d.bytes
      let v ← ValTy.walkLoad cs i o m (p + d.bytes) (ValTy.maxCaseAlignment cs)
      .ok (.variantV i v)

/-- `BaseRecordType.load` over a tuple with the constructor offsets. -/
def ValTy.loadFields : ValTyList → Opts → Mem → Nat → Nat → Except CMErr JValList
  | .nil, _, _, _, _ => .ok .nil
  | .cons t ts, o, m, base, off => do
      let off2 := alignUp off t.alignmentV
      let v ← t.load o m (base + off2)
      let vs ← ValTy.loadFields ts o m base (off2 + t.sizeV)
      .ok (.cons v vs)

/-- The per-case part of `VariantType.load`. -/
def ValTy.walkLoad : VCaseList → Nat → Opts → Mem → Nat → Nat → Except CMErr JVal
  | .nil, _, _, _, _, _ => .error .typeErr
  | .consNone _, 0, _, _, _, _ => .ok .undef
  | .consSome t _, 0, o, m, p, a => t.load o m (alignUp p a)
  | .consNone tl, i + 1, o, m, p, a => ValTy.walkLoad tl i o m p a
  | .consSome _ tl, i + 1, o, m, p, a => ValTy.walkLoad tl i o m p a
end

mutual
/-- Well-formedness: a descriptor the exported constructors can build
(`VariantType`/`EnumType` construction computes a discriminant type,
which fails above `2 ^ 24` cases and for an empty case list). -/
def ValTy.wfB : ValTy → Bool
  | .enumT n => decide (1 ≤ n ∧ n ≤ 2 ^ 24)
  | .tupleT fs => ValTy.wfList fs
  | .optionT t => t.wfB
  | .variantT cs => decide (1 ≤ cs.length ∧ cs.length ≤ 2 ^ 24) && ValTy.wfCases cs
  | _ => true

def ValTy.wfList : ValTyList → Bool
  | .nil => true
  | .cons t ts => t.wfB && ValTy.wfList ts

def ValTy.wfCases : VCaseList → Bool
  | .nil => true
  | .consNone tl => ValTy.wfCases tl
  | .consSome t tl => t.wfB && ValTy.wfCases tl
end

mutual
/-- The native domain of a descriptor: the values of the right dynamic
shape that the range validations accept.  Numbers are taken in the
canonical representation (each JS number has exactly one); for the floats
the value must additionally survive the wire-format bit reinterpretation
(`RepF32`/`RepF64`) — for `float64` that is every value a JS engine can
hold, for `float32` it restricts to binary32 values; `char` values are the
Unicode scalar values expressible as a length-1 JS string (the
`asCodePoint` length check rejects supplementary code points). -/
def ValTy.inDomain : ValTy → Opts → JVal → Bool
  | .boolT, _, .boolV _ => true
  | .u8T, _, .num (.fin n 0) => decide (0 ≤ n ∧ n ≤ 255)
  | .u16T, _, .num (.fin n 0) => decide (0 ≤ n ∧ n ≤ 65535)
  | .u32T, _, .num (.fin n 0) => decide (0 ≤ n ∧ n ≤ 4294967295)
  | .u64T, _, .big v => decide (0 ≤ v)
  | .s8T, _, .num (.fin n 0) => decide (-128 ≤ n ∧ n ≤ 127)
  | .s16T, _, .num (.fin n 0) => decide (-32768 ≤ n ∧ n ≤ 32767)
  | .s32T, _, .num (.fin n 0) => decide (-2147483648 ≤ n ∧ n ≤ 2147483647)
  | .s64T, _, .big v => decide (-tpow 63 ≤ v ∧ v ≤ tpow 63 - 1)
  | .f32T, _, .num .nan => true
  | .f32T, _, .num (.fin m e) =>
    !JSNum.lt (.fin m e) f32Low && !JSNum.gt (.fin m e) f32High
      && decide (RepF32 (.fin m e))
  | .f64T, _, .num .nan => true
  | .f64T, _, .num (.fin m e) =>
    !JSNum.lt (.fin m e) f64Low && !JSNum.gt (.fin m e) f64High
      && decide (RepF64 (.fin m e))
  | .charT, _, .str [u] => decide (u ≤ 0xD7FF ∨ (0xE000 ≤ u ∧ u ≤ 0xFFFF))
  | .enumT n, _, .num (.fin v 0) => decide (0 ≤ v ∧ v < (n : Int))
  | .tupleT fs, o, .tup vs => ValTy.domList fs o vs
  | .optionT t, o, v =>
    if o.keepOption then
      match v with
      | .optionV false .undef => true
      | .optionV true p => t.inDomain o p
      | _ => false
    else
      match v with
      | .undef => true
      | .optionV _ _ => false
      | v => t.inDomain o v
  | .variantT cs, o, .variantV i p => ValTy.domCases cs i o p
  | _, _, _ => false

def ValTy.domList : ValTyList → Opts → JValList → Bool
  | .nil, _, .nil => true
  | .cons t ts, o, .cons v vs => t.inDomain o v && ValTy.domList ts o vs
  | _, _, _ => false

def ValTy.domCases : VCaseList → Nat → Opts → JVal → Bool
  | .nil, _, _, _ => false
  | .consNone _, 0, _, p => p == .undef
  | .consSome t _, 0, o, p => p != .undef && t.inDomain o p
  | .consNone tl, i + 1, o, p => ValTy.domCases tl i o p
  | .consSome _ tl, i + 1, o, p => ValTy.domCases tl i o p
end

mutual
/-- No float component of the value equals the corresponding NaN
sentinel (a finite value equal to the sentinel does not survive the
lower/lift round trip: it lifts as NaN). -/
def ValTy.noSent : ValTy → JVal → Bool
  | .f32T, .num x => !x.eqv f32NaN
  | .f64T, .num x => !x.eqv f64NaN
  | .tupleT fs, .tup vs => ValTy.noSentList fs vs
  | .optionT t, v =>
    (match v with
     | .optionV true p => t.noSent p
     | .optionV false _ => true
     | .undef => true
     | v => t.noSent v)
  | .variantT cs, .variantV i p => ValTy.noSentCases cs i p
  | _, _ => true

def ValTy.noSentList : ValTyList → JValList → Bool
  | .cons t ts, .cons v vs => t.noSent v && ValTy.noSentList ts vs
  | _, _ => true

def ValTy.noSentCases : VCaseList → Nat → JVal → Bool
  | .consSome t _, 0, p => t.noSent p
  | .consNone tl, i + 1, p => ValTy.noSentCases tl i p
  | .consSome _ tl, i + 1, p => ValTy.noSentCases tl i p
  | _, _, _ => true
end

/-- UTF-8 bytes of one code point (`TextEncoder`). -/
def utf8EncodeCP (c : Nat) : List Nat :=
  if c ≤ 0x7F then [c]
  else if c ≤ 0x7FF then [0xC0 + c / 64, 0x80 + c % 64]
  else if c ≤ 0xFFFF then [0xE0 + c / 4096, 0x80 + c / 64 % 64, 0x80 + c % 64]
  else [0xF0 + c / 262144, 0x80 + c / 4096 % 64, 0x80 + c / 64 % 64, 0x80 + c % 64]

/-- Code points of a UTF-16 code unit sequence; lone surrogates become
U+FFFD, as `TextEncoder` does. -/
def utf16ToCodePoints : List Nat → List Nat
  | [] => []
  | [u] => if 0xD800 ≤ u ∧ u ≤ 0xDFFF then [0xFFFD] else [u]
  | u :: v :: rest =>
    if 0xD800 ≤ u ∧ u ≤ 0xDBFF then
      if 0xDC00 ≤ v ∧ v ≤ 0xDFFF then
        (0x10000 + (u - 0xD800) * 0x400 + (v - 0xDC00)) :: utf16ToCodePoints rest
      else 0xFFFD :: utf16ToCodePoints (v :: rest)
    else if 0xDC00 ≤ u ∧ u ≤ 0xDFFF then 0xFFFD :: utf16ToCodePoints (v :: rest)
    else u :: utf16ToCodePoints (v :: rest)

/-- `utf8Encoder.encode` on a JS string given as UTF-16 units. -/
def utf8Encode (units : List Nat) : List Nat :=
  ((utf16ToCodePoints units).map utf8EncodeCP).flatten

/-- One start byte of the WHATWG UTF-8 decoder: the units it emits and
the next state (bytes still needed, code point so far, and the boundary
window for the next continuation byte). -/
def utf8Start (b : Nat) : List Nat × (Nat × Nat × Nat × Nat) :=
  if b ≤ 0x7F then ([b], (0, 0, 0x80, 0xBF))
  else if 0xC2 ≤ b ∧ b ≤ 0xDF then ([], (1, b - 0xC0, 0x80, 0xBF))
  else if 0xE0 ≤ b ∧ b ≤ 0xEF then
    ([], (2, b - 0xE0, (if b = 0xE0 then 0xA0 else 0x80), (if b = 0xED then 0x9F else 0xBF)))
  else if 0xF0 ≤ b ∧ b ≤ 0xF4 then
    ([], (3, b - 0xF0, (if b = 0xF0 then 0x90 else 0x80), (if b = 0xF4 then 0x8F else 0xBF)))
  else ([0xFFFD], (0, 0, 0x80, 0xBF))

/-- The WHATWG UTF-8 decoder (`utf8Decoder.decode`, non-fatal mode), one
byte per step; an invalid continuation byte emits U+FFFD and is
reconsumed as a start byte in the same step. -/
def utf8DecodeGo (byteAt : Nat → Nat) : Nat → Nat → Nat × Nat × Nat × Nat → List Nat
  | 0, _, st => if st.1 = 0 then [] else [0xFFFD]
  | rem + 1, p, (needed, cp, lo, hi) =>
    let b := byteAt p
    if needed = 0 then
      let r := utf8Start b
      r.1 ++ utf8DecodeGo byteAt rem (p + 1) r.2
    else if lo ≤ b ∧ b ≤ hi then
      let cp2 := cp * 64 + (b - 0x80)
      if needed = 1 then
        fromCodePointUnits cp2 ++ utf8DecodeGo byteAt rem (p + 1) (0, 0, 0x80, 0xBF)
      else utf8DecodeGo byteAt rem (p + 1) (needed - 1, cp2, 0x80, 0xBF)
    else
      let r := utf8Start b
      0xFFFD :: (r.1 ++ utf8DecodeGo byteAt rem (p + 1) r.2)

/-- Decode `len` UTF-8 bytes starting at relative position 0. -/
def utf8Decode (byteAt : Nat → Nat) (len : Nat) : List Nat :=
  utf8DecodeGo byteAt len 0 (0, 0, 0x80, 0xBF)

/-- Write a byte list into memory at `p`. -/
def writeBytes : Mem → Nat → List Nat → Mem
  | m, _, [] => m
  | m, p, b :: bs => writeBytes (m.writeByte p b) (p + 1) bs

/-- Write UTF-16 code units little-endian (`data[i] = str.charCodeAt(i)`
through a `Uint16Array` view). -/
def writeUnits16 : Mem → Nat → List Nat → Mem
  | m, _, [] => m
  | m, p, u :: us => writeUnits16 (writeLE m p 2 u) (p + 2) us

/-- Read `n` UTF-16 code units little-endian
(`String.fromCharCode(...new Uint16Array(buffer, data, codeUnits))`). -/
def readUnits16 (m : Mem) : Nat → Nat → List Nat
  | _, 0 => []
  | p, n + 1 => readLE m p 2 :: readUnits16 m (p + 2) n

/-- `$wstring.storeIntoRange`: allocate the body (alignment 1 — the
source passes `u8.alignment` for both encodings), copy it, and return
`(data pointer, code units, memory)`. -/
def wstringStoreIntoRange (m : Mem) (units : List Nat) (o : Opts) : Except CMErr (Nat × Nat × Mem) :=
  match o.encoding with
  | .latin1utf16 => .error .unsupportedEncoding
  | .utf8 =>
    let data := utf8Encode units
    let r := m.alloc 1 data.length
    .ok (r.1, data.length, writeBytes r.2 r.1 data)
  | .utf16 =>
    let r := m.alloc 1 (units.length * 2)
    .ok (r.1, units.length, writeUnits16 r.2 r.1 units)

/-- `$wstring.store`: store the body, then write the header fields with
`view.setUint32(..., true)` (little-endian). -/
def wstringStore (m : Mem) (p : Nat) (units : List Nat) (o : Opts) : Except CMErr Mem := do
  let (data, codeUnits, m2) ← wstringStoreIntoRange m units o
  .ok (writeLE (writeLE m2 p 4 data) (p + 4) 4 codeUnits)

/-- `$wstring.loadFromRange`. -/
def wstringLoadFromRange (m : Mem) (data codeUnits : Nat) (o : Opts) : Except CMErr (List Nat) :=
  match o.encoding with
  | .latin1utf16 => .error .unsupportedEncoding
  | .utf8 => .ok (utf8Decode (fun i => m.data (data + i)) codeUnits)
  | .utf16 => .ok (readUnits16 m data codeUnits)

/-- `$wstring.load`: the header fields are read with
`view.getUint32(ptr + offset)` — the `littleEndian` argument is omitted
in the source, so `DataView` reads them big-endian. -/
def wstringLoad (m : Mem) (p : Nat) (o : Opts) : Except CMErr (List Nat) :=
  let dataPtr := getUint32 m p false
  let codeUnits := getUint32 m (p + 4) false
  wstringLoadFromRange m dataPtr codeUnits o

/-- `ListType.store` for an element type of the family: allocate
`elementType.size * values.length` bytes at the element alignment, store
the elements sequentially, and write the header little-endian. -/
def listStoreElems : ValTy → Opts → Mem → Nat → JValList → Except CMErr Mem
  | _, _, m, _, .nil => .ok m
  | t, o, m, p, .cons v vs => do
      let m2 ← t.store o m p v
      listStoreElems t o m2 (p + t.sizeV) vs

def JValList.length : JValList → Nat
  | .nil => 0
  | .cons _ tl => tl.length + 1

def listStore (t : ValTy) (m : Mem) (p : Nat) (vs : JValList) (o : Opts) : Except CMErr Mem := do
  let r := m.alloc t.alignmentV (t.sizeV * vs.length)
  let m2 ← listStoreElems t o r.2 r.1 vs
  .ok (writeLE (writeLE m2 p 4 r.1) (p + 4) 4 vs.length)

/-- `ListType.loadFromRange`: load `length` elements sequentially. -/
def listLoadElems (t : ValTy) (o : Opts) (m : Mem) : Nat → Nat → Except CMErr JValList
  | _, 0 => .ok .nil
  | p, n + 1 => do
      let v ← t.load o m p
      let vs ← listLoadElems t o m (p + t.sizeV) n
      .ok (.cons v vs)

/-- `ListType.load`: the header is read with `view.getUint32(ptr +
offset)` — again without the `littleEndian` argument, hence
big-endian. -/
def listLoad (t : ValTy) (m : Mem) (p : Nat) (o : Opts) : Except CMErr JValList :=
  let dataPtr := getUint32 m p false
  let length := getUint32 m (p + 4) false
  listLoadElems t o m dataPtr length

/-- `FlagsType.createSingle` returns an object whose `_bits` property is
initialized from the constructor argument `bits`, while the per-flag
getters and setters close over the `bits` parameter itself — a separate
mutable binding that the setters update and the getters read;`_bits` is
never reassigned. -/
structure SingleFlags where
  closureBits : Nat
  bitsField : Nat
deriving DecidableEq

def createSingle (bits : Nat) : SingleFlags := ⟨bits, bits⟩

/-- `FlagField.create(name, i >>> 5, 1 << (i & 31))`: the mask of flag
`i` (flag counts here stay below 31, keeping the JS 32-bit signed shift
positive). -/
def flagMask (i : Nat) : Nat := 2 ^ (i % 32)

/-- The setter of flag `i`: `bits |= mask` / `bits &= ~mask` on the
closure binding (32-bit operands). -/
def SingleFlags.setFlag (v : SingleFlags) (i : Nat) (b : Bool) : SingleFlags :=
  { v with closureBits :=
      if b then v.closureBits ||| flagMask i
      else v.closureBits &&& (0xFFFFFFFF ^^^ flagMask i) }

/-- The getter of flag `i`: `(bits & mask) !== 0` on the closure
binding. -/
def SingleFlags.getFlag (v : SingleFlags) (i : Nat) : Bool :=
  v.closureBits &&& flagMask i != 0

/-- `FlagsType.size`. -/
def flagsSize (fields : Nat) : Nat :=
  if fields = 0 then 0
  else if fields ≤ 8 then 1
  else if fields ≤ 16 then 2
  else 4 * ((fields + 31) / 32)

/-- `FlagsType.alignment`. -/
def flagsAlignment (fields : Nat) : Nat :=
  if fields ≤ 8 then 1
  else if fields ≤ 16 then 2
  else 4

/-- `FlagsType.store` in the `Single` storage case with a `u32` backing
type (flag count 17–32): `u32.store(memory, ptr, flags._bits)`. -/
def flagsStoreSingle32 (m : Mem) (p : Nat) (v : SingleFlags) : Mem :=
  storeNum m p 4 (.ofNat v.bitsField)

/-- The `RecordType`/`TupleType` constructor offsets: each field offset
is the running offset rounded up to the field alignment, which then
advances by the field size. -/
def recordOffsetsGo (off : Nat) : List ValTy → List Nat
  | [] => []
  | t :: ts =>
    let o2 := alignUp off t.alignmentV
    o2 :: recordOffsetsGo (o2 + t.sizeV) ts

def recordOffsets (fields : List ValTy) : List Nat := recordOffsetsGo 0 fields

def toValTyList : List ValTy → ValTyList
  | [] => .nil
  | t :: ts => .cons t (toValTyList ts)

/-- A `FunctionType`: the ordered parameter types and the optional return
type (names play no role in the call semantics). -/
structure FuncTy where
  params : List ValTy
  returnType : Option ValTy

/-- `MAX_FLAT_PARAMS`. -/
def MAX_FLAT_PARAMS : Nat := 16

/-- `MAX_FLAT_RESULTS`. -/
def MAX_FLAT_RESULTS : Nat := 1

/-- `paramFlatTypes`: the summed flat lengths of the parameters. -/
def FuncTy.paramFlatTypes (f : FuncTy) : Nat :=
  (f.params.map (fun t => t.flatTypes.length)).sum

/-- `paramTupleType`: the parameters as one `TupleType`. -/
def FuncTy.paramTupleType (f : FuncTy) : ValTy := .tupleT (toValTyList f.params)

/-- `returnFlatTypes`. -/
def FuncTy.returnFlatTypes (f : FuncTy) : Nat :=
  match f.returnType with
  | none => 0
  | some t => t.flatTypes.length

/-- `AbstractResourceCallable.liftParamValues`: above `MAX_FLAT_PARAMS`,
interpret the first flat value as a pointer (after a `Number.isInteger`
check) and load the parameter tuple; otherwise lift it from the flat
stream. -/
def FuncTy.liftParamValues (f : FuncTy) (wasmValues : List WasmVal) (m : Mem) (o : Opts) :
    Except CMErr JValList :=
  if f.paramFlatTypes > MAX_FLAT_PARAMS then
    match wasmValues.head? with
    | some (.num p0) =>
      if !p0.isInteger then .error .invalidPointer
      else if p0.toInt < 0 then .error .typeErr
      else do
        match ← f.paramTupleType.load o m p0.toInt.toNat with
        | .tup vs => .ok vs
        | _ => .error .typeErr
    | _ => .error .invalidPointer
  else do
    match ← f.paramTupleType.liftFlat o wasmValues with
    | (.tup vs, _) => .ok vs
    | _ => .error .typeErr

/-- `AbstractResourceCallable.lowerParamValues`: above `MAX_FLAT_PARAMS`,
allocate (or use `out`), store the parameter tuple and pass its pointer
as the only flat value; otherwise lower to the flat list. -/
def FuncTy.lowerParamValues (f : FuncTy) (values : JValList) (m : Mem) (o : Opts)
    (out : Option Nat) : Except CMErr (List WasmVal × Mem) :=
  if f.paramFlatTypes > MAX_FLAT_PARAMS then
    let pt := f.paramTupleType
    let r := match out with
      | some p => (p, m)
      | none => m.alloc pt.alignmentV pt.sizeV
    do
      let m2 ← pt.store o r.2 r.1 (.tup values)
      .ok ([.num (.ofNat r.1)], m2)
  else do
    let sink ← f.paramTupleType.lowerFlat o (.tup values)
    .ok (sink, m)

/-- `AbstractResourceCallable.liftReturnValue`: nothing for zero flat
results, a flat lift of the single value for one, a load through the
value as pointer above `MAX_FLAT_RESULTS`. -/
def FuncTy.liftReturnValue (f : FuncTy) (value : Option WasmVal) (m : Mem) (o : Opts) :
    Except CMErr (Option JVal) :=
  if f.returnFlatTypes = 0 then .ok none
  else if f.returnFlatTypes ≤ MAX_FLAT_RESULTS then
    match f.returnType, value with
    | some t, some v => do
        let r ← t.liftFlat o [v]
        .ok (some r.1)
    | _, _ => .error .typeErr
  else
    match f.returnType, value with
    | some t, some (.num p) =>
      if p.isInteger ∧ 0 ≤ p.toInt then do
        let j ← t.load o m p.toInt.toNat
        .ok (some j)
      else .error .typeErr
    | _, _ => .error .typeErr

/-- `AbstractResourceCallable.lowerReturnValue`: nothing for zero flat
results; for one, lower and insist on a single flat value; above
`MAX_FLAT_RESULTS`, store through `out` (or a fresh allocation). -/
def FuncTy.lowerReturnValue (f : FuncTy) (value : Option JVal) (m : Mem) (o : Opts)
    (out : Option Nat) : Except CMErr (Option WasmVal × Mem) :=
  if f.returnFlatTypes = 0 then .ok (none, m)
  else if f.returnFlatTypes ≤ MAX_FLAT_RESULTS then
    match f.returnType with
    | some t => do
        let sink ← t.lowerFlat o (value.getD .undef)
        match sink with
        | [v] => .ok (some v, m)
        | _ => .error .invalidResult
    | none => .error .typeErr
  else
    match f.returnType with
    | some t =>
      let r := match out with
        | some p => (p, m)
        | none => m.alloc t.alignmentV t.sizeV
      do
        let m2 ← t.store o r.2 r.1 (value.getD .undef)
        .ok (none, m2)
    | none => .error .typeErr

/-- `FunctionType.callService`: arity check (only when the return is
indirect), lift the parameters, invoke the native implementation, then
read `params[params.length - 1]` as the out pointer and reject it unless
`typeof out === 'number'` — this check runs before `lowerReturnValue`
regardless of the return arity (an empty parameter list makes `out`
`undefined`).  A fractional or negative out pointer with an indirect
return would crash the store in the source and is not modeled further. -/
def FuncTy.callService (f : FuncTy) (serviceFunction : JValList → Option JVal)
    (params : List WasmVal) (m : Mem) (o : Opts) : Except CMErr (Option WasmVal × Mem) :=
  if f.returnFlatTypes > MAX_FLAT_RESULTS ∧ params.length ≠ f.paramFlatTypes + 1 then
    .error .invalidParamCount
  else do
    let jParams ← f.liftParamValues params m o
    let result := serviceFunction jParams
    match params.getLast? with
    | some (.num x) => f.lowerReturnValue result m o (some x.toInt.toNat)
    | _ => .error .resultPtrNotNumber

/-- A guest export: flat values in, memory effect and an optional flat
result out. -/
def WasmFn : Type := List WasmVal → Mem → Mem × Option WasmVal

def wasmToJVal : WasmVal → JVal
  | .num x => .num x
  | .big v => .big v

/-- `FunctionType.callWasm`: lower the parameters, allocate and append a
return buffer when the return is indirect, invoke the guest, then switch
on `returnFlatTypes`: 0 returns nothing; 1 returns the guest's flat
result as is (the source returns `result` without passing it through
`liftReturnValue`); otherwise lift from the return buffer. -/
def FuncTy.callWasm (f : FuncTy) (args : JValList) (wasmFunction : WasmFn) (m : Mem)
    (o : Opts) : Except CMErr (Option JVal × Mem) := do
  let (wasmValues, m1) ← f.lowerParamValues args m o none
  let alloc? : Option (Nat × Mem) :=
    if f.returnFlatTypes > MAX_FLAT_RESULTS then
      match f.returnType with
      | some t => some (m1.alloc t.alignmentV t.sizeV)
      | none => none
    else none
  let resultPtr : Option Nat := alloc?.map Prod.fst
  let m2 := (alloc?.map Prod.snd).getD m1
  let wasmValues2 := match resultPtr with
    | some p => wasmValues ++ [.num (.ofNat p)]
    | none => wasmValues
  let r := wasmFunction wasmValues2 m2
  match f.returnFlatTypes, r.2, resultPtr with
  | 0, _, _ => .ok (none, r.1)
  | 1, result, _ => .ok (result.map wasmToJVal, r.1)
  | _, _, some p => do
      let j ← f.liftReturnValue (some (.num (.ofNat p))) r.1 o
      .ok (j, r.1)
  | _, _, none => .error .typeErr

/-- A fresh zeroed memory (test fixture for the concrete runs below). -/
def memFresh : Mem := { data := fun _ => 0, allocPtr := 0 }

/-- The default options: UTF-8 strings, plain native option values. -/
def optUtf8 : Opts := { encoding := .utf8, keepOption := false }

/-- The memory produced by storing the string "hi" (units 104, 105) at
pointer 8 into `memFresh`: body bytes at 0, header written little-endian
at 8 (data pointer 0) and 12 (code units 2). -/
def c1mem : Mem :=
  writeLE (writeLE (writeBytes { data := fun _ => 0, allocPtr := 2 } 0 [104, 105]) 8 4 0) 12 4 2

/-- A 26-flag native value with flags 1 (`b`) and 25 (`z`) set through the
setters. -/
def c4flags : SingleFlags := ((createSingle 0).setFlag 1 true).setFlag 25 true

/-- A guest function returning the flat value 1 (a lowered `true`). -/
def c7fn : WasmFn := fun _ m => (m, some (.num (.fin 1 0)))

theorem tpow_zero : tpow 0 = 1 := rfl

theorem lt_int (a b : Int) : JSNum.lt (.fin a 0) (.fin b 0) = decide (a < b) := by
  simp [JSNum.lt, JSNum.finCmpLt, tpow_zero]

theorem gt_int (a b : Int) : JSNum.gt (.fin a 0) (.fin b 0) = decide (b < a) := by
  simp [JSNum.gt, lt_int]

theorem eqv_int (a b : Int) : JSNum.eqv (.fin a 0) (.fin b 0) = decide (a = b) := by
  simp [JSNum.eqv, tpow_zero]

theorem isInteger_int (a : Int) : JSNum.isInteger (.fin a 0) = true := by
  simp [JSNum.isInteger]

theorem toInt_int (a : Int) : JSNum.toInt (.fin a 0) = a := by
  simp [JSNum.toInt, tpow_zero]

theorem mkFin_int (a : Int) : JSNum.mkFin a 0 = .fin a 0 := by
  unfold JSNum.mkFin
  split
  · simp_all
  · simp [tpow_zero]

theorem add_int (a b : Int) : JSNum.add (.fin a 0) (.fin b 0) = .fin (a + b) 0 := by
  simp [JSNum.add, tpow_zero, mkFin_int]

theorem uLowerFlat_int (hi n : Int) (h0 : 0 ≤ n) (h1 : n ≤ hi) :
    uLowerFlat hi (.fin n 0) = .ok [.num (.fin n 0)] := by
  have hc1 : ¬ n < 0 := by omega
  have hc2 : ¬ hi < n := by omega
  simp [uLowerFlat, lt_int, gt_int, isInteger_int, hc1, hc2]

theorem uLiftFlat_int (hi n : Int) (rest : List WasmVal) (h0 : 0 ≤ n) (h1 : n ≤ hi) :
    uLiftFlat hi (.num (.fin n 0) :: rest) = .ok (.fin n 0, rest) := by
  have hc1 : ¬ n < 0 := by omega
  have hc2 : ¬ hi < n := by omega
  simp [uLiftFlat, iterNext, lt_int, gt_int, isInteger_int, hc1, hc2, Bind.bind, Except.bind]

theorem sLowerFlat_neg (lo hi n : Int) (h0 : lo ≤ n) (h1 : n < 0) (h2 : 0 ≤ hi) :
    sLowerFlat lo hi (.fin n 0) = .ok [.num (.fin (n + (hi - lo + 1)) 0)] := by
  have hc1 : ¬ n < lo := by omega
  have hc2 : ¬ hi < n := by omega
  simp [sLowerFlat, lt_int, gt_int, isInteger_int, hc1, hc2, h1, add_int]

theorem sLowerFlat_nonneg (lo hi n : Int) (h0 : 0 ≤ n) (h1 : n ≤ hi) (h2 : lo ≤ 0) :
    sLowerFlat lo hi (.fin n 0) = .ok [.num (.fin n 0)] := by
  have hc1 : ¬ n < lo := by omega
  have hc2 : ¬ hi < n := by omega
  have hc3 : ¬ n < 0 := by omega
  simp [sLowerFlat, lt_int, gt_int, isInteger_int, hc1, hc2, hc3]

theorem sLiftFlat_high (uhi shi n : Int) (rest : List WasmVal)
    (h0 : 0 ≤ n) (h1 : n ≤ uhi) (h2 : shi < n) :
    sLiftFlat uhi shi (.num (.fin n 0) :: rest) = .ok (.fin (n - (uhi + 1)) 0, rest) := by
  have hc1 : ¬ n < 0 := by omega
  have hc2 : ¬ uhi < n := by omega
  simp [sLiftFlat, iterNext, lt_int, gt_int, isInteger_int, hc1, hc2, h2, add_int,
    Bind.bind, Except.bind]
  ring

theorem sLiftFlat_low (uhi shi n : Int) (rest : List WasmVal)
    (h0 : 0 ≤ n) (h1 : n ≤ shi) (h2 : shi ≤ uhi) :
    sLiftFlat uhi shi (.num (.fin n 0) :: rest) = .ok (.fin n 0, rest) := by
  have hc1 : ¬ n < 0 := by omega
  have hc2 : ¬ uhi < n := by omega
  have hc3 : ¬ shi < n := by omega
  simp [sLiftFlat, iterNext, lt_int, gt_int, isInteger_int, hc1, hc2, hc3,
    Bind.bind, Except.bind]

theorem boolLiftFlat_int (n : Int) (rest : List WasmVal) (h0 : 0 ≤ n) :
    boolLiftFlat (.num (.fin n 0) :: rest) = .ok (decide (n ≠ 0), rest) := by
  have hc1 : ¬ n < 0 := by omega
  simp [boolLiftFlat, iterNext, lt_int, eqv_int, hc1, Bind.bind, Except.bind]

/-- A flat slot value is well typed for its declared machine type:
`i32` slots hold canonical 32-bit-bounded integers, `i64` slots hold
bigints, float slots hold values that survive the bit
reinterpretations. -/
def SlotTyped : WTN → WasmVal → Prop
  | .i32, .num x => ∃ n : Int, x = .fin n 0 ∧ -tpow 31 ≤ n ∧ n < tpow 32
  | .i64, .big _ => True
  | .f32, .num x => RepF32 x
  | .f64, .num x => RepF64 x
  | _, _ => False

/-- Pointwise slot typing of a flat value list against a flat type
list of the same length. -/
def SlotsTyped : List WTN → List WasmVal → Prop
  | [], [] => True
  | t :: ts, v :: vs => SlotTyped t v ∧ SlotsTyped ts vs
  | _, _ => False

theorem slotsTyped_length : ∀ (ts : List WTN) (vs : List WasmVal),
    SlotsTyped ts vs → vs.length = ts.length := by
  intro ts
  induction ts with
  | nil =>
    intro vs h
    cases vs with
    | nil => rfl
    | cons v vs => exact absurd h (by simp [SlotsTyped])
  | cons t ts ih =>
    intro vs h
    cases vs with
    | nil => exact absurd h (by simp [SlotsTyped])
    | cons v vs => simpa using ih vs h.2

theorem slotsTyped_append : ∀ (ts1 : List WTN) (vs1 : List WasmVal) (ts2 : List WTN) (vs2 : List WasmVal),
    SlotsTyped ts1 vs1 → SlotsTyped ts2 vs2 → SlotsTyped (ts1 ++ ts2) (vs1 ++ vs2) := by
  intro ts1
  induction ts1 with
  | nil =>
    intro vs1 ts2 vs2 h1 h2
    cases vs1 with
    | nil => simpa using h2
    | cons v vs => exact absurd h1 (by simp [SlotsTyped])
  | cons t ts ih =>
    intro vs1 ts2 vs2 h1 h2
    cases vs1 with
    | nil => exact absurd h1 (by simp [SlotsTyped])
    | cons v vs => exact ⟨h1.1, ih vs ts2 vs2 h1.2 h2⟩

theorem padZeros_length : ∀ ts : List WTN, (padZeros ts).length = ts.length := by
  intro ts
  induction ts with
  | nil => rfl
  | cons t ts ih => cases t <;> simp [padZeros, ih]

theorem repF32_zero : RepF32 (.fin 0 0) := by decide

theorem repF64_zero : RepF64 (.fin 0 0) := by decide

theorem padZeros_typed : ∀ ts : List WTN, SlotsTyped ts (padZeros ts) := by
  intro ts
  induction ts with
  | nil => trivial
  | cons t ts ih =>
    cases t
    · exact ⟨⟨0, rfl, by decide, by decide⟩, ih⟩
    · exact ⟨trivial, ih⟩
    · exact ⟨repF32_zero, ih⟩
    · exact ⟨repF64_zero, ih⟩

/-- The (want, joined) slot pairs the variant coercion machinery can
produce: the join only widens, so a case's own slot type is either the
joined type or one of the four widening pairs. -/
inductive Coercible : WTN → WTN → Prop where
  | same (w : WTN) : Coercible w w
  | i32i64 : Coercible .i32 .i64
  | f32i32 : Coercible .f32 .i32
  | f32i64 : Coercible .f32 .i64
  | f64i64 : Coercible .f64 .i64

theorem coercible_join (a b : WTN) : Coercible b (joinFlatType a b) := by
  cases a <;> cases b <;>
    first
      | exact Coercible.same _
      | exact Coercible.i32i64
      | exact Coercible.f32i32
      | exact Coercible.f32i64
      | exact Coercible.f64i64

theorem coercible_mono (w cur x : WTN) (h : Coercible w cur) :
    Coercible w (joinFlatType cur x) := by
  cases h <;> cases x <;> try cases w
  all_goals
    first
      | exact Coercible.same _
      | exact Coercible.i32i64
      | exact Coercible.f32i32
      | exact Coercible.f32i64
      | exact Coercible.f64i64

/-- `ws` is a coercible prefix of `ps`: pointwise `Coercible` and
`ws.length ≤ ps.length`. -/
def ExtCo : List WTN → List WTN → Prop
  | [], _ => True
  | _ :: _, [] => False
  | w :: ws, p :: ps => Coercible w p ∧ ExtCo ws ps

theorem extCo_length : ∀ (ws ps : List WTN), ExtCo ws ps → ws.length ≤ ps.length := by
  intro ws
  induction ws with
  | nil => intro ps _; simp
  | cons w ws ih =>
    intro ps h
    cases ps with
    | nil => exact absurd h (by simp [ExtCo])
    | cons p ps => simpa using ih ps h.2

theorem extCo_refl : ∀ ws : List WTN, ExtCo ws ws := by
  intro ws
  induction ws with
  | nil => trivial
  | cons w ws ih => exact ⟨Coercible.same w, ih⟩

theorem extCo_joinPayload_self : ∀ (acc l : List WTN), ExtCo l (joinPayload acc l) := by
  intro acc
  induction acc with
  | nil => intro l; simp [joinPayload]; exact extCo_refl l
  | cons f fs ih =>
    intro l
    cases l with
    | nil => trivial
    | cons w ws => exact ⟨coercible_join f w, ih ws⟩

theorem extCo_joinPayload_mono : ∀ (ws ps l : List WTN), ExtCo ws ps → ExtCo ws (joinPayload ps l) := by
  intro ws
  induction ws with
  | nil => intro ps l _; trivial
  | cons w ws ih =>
    intro ps l h
    cases ps with
    | nil => exact absurd h (by simp [ExtCo])
    | cons p ps =>
      cases l with
      | nil => exact h
      | cons x xs => exact ⟨coercible_mono w p x h.1, ih ps xs h.2⟩

/-- Every typed case of the list has a coercible-prefix relation to the
candidate payload slot list. -/
def CasesExt : VCaseList → List WTN → Prop
  | .nil, _ => True
  | .consNone tl, j => CasesExt tl j
  | .consSome t tl, j => ExtCo t.flatTypes j ∧ CasesExt tl j

theorem extCo_payloadFlat : ∀ (cs : VCaseList) (ws p : List WTN),
    ExtCo ws p → ExtCo ws (ValTy.variantPayloadFlat p cs)
  | .nil, _, _, h => h
  | .consNone tl, ws, p, h => extCo_payloadFlat tl ws p h
  | .consSome t tl, ws, p, h =>
      extCo_payloadFlat tl ws (joinPayload p t.flatTypes)
        (extCo_joinPayload_mono ws p t.flatTypes h)

theorem casesExt_payloadFlat : ∀ (cs : VCaseList) (acc : List WTN),
    CasesExt cs (ValTy.variantPayloadFlat acc cs)
  | .nil, _ => trivial
  | .consNone tl, acc => casesExt_payloadFlat tl acc
  | .consSome t tl, acc =>
      ⟨extCo_payloadFlat tl t.flatTypes (joinPayload acc t.flatTypes)
          (extCo_joinPayload_self acc t.flatTypes),
        casesExt_payloadFlat tl (joinPayload acc t.flatTypes)⟩

theorem toSigned32_bound (b : Nat) (h : b < 2 ^ 32) :
    -tpow 31 ≤ toSigned 32 b ∧ toSigned 32 b < tpow 31 := by
  simp only [toSigned, tpow]
  norm_num
  split <;> omega

theorem jsBigInt_int (n : Int) : jsBigInt (.fin n 0) = .ok n := by
  simp [jsBigInt, isInteger_int, toInt_int]

theorem tpow32_le_maxValue : tpow 32 ≤ maxValueInt := by decide

theorem asNumber_small (v : Int) (h : v < tpow 32) : asNumber v = .ok (.fin v 0) := by
  have := tpow32_le_maxValue
  simp [asNumber, JSNum.ofInt]
  omega

theorem f32bits_mod_lt (x : JSNum) : f32bits x % 2 ^ 32 < 2 ^ 32 := by
  exact Nat.mod_lt _ (by norm_num)

/-- One coercion slot round trip: lowering from the case's slot type to
the joined type succeeds on a well-typed slot, yields a slot well typed
at the joined type, and the lift coercion inverts it. -/
theorem coerce1_roundtrip (a b : WTN) (x : WasmVal) (hco : Coercible a b) (ht : SlotTyped a x) :
    ∃ y, coerce1Lower a b x = .ok y ∧ SlotTyped b y ∧ coerce1Lift b a y = .ok x := by
  cases hco
  case same =>
    cases a <;> cases x <;> exact ⟨_, rfl, ht, rfl⟩
  case i32i64 =>
    cases x with
    | big v => exact absurd ht (by simp [SlotTyped])
    | num z =>
      obtain ⟨n, hz, hb1, hb2⟩ := ht
      subst hz
      refine ⟨.big n, ?_, trivial, ?_⟩
      · simp [coerce1Lower, convert_i32_to_i64, jsBigInt_int, Bind.bind, Except.bind]
      · simp [coerce1Lift, convert_i64_to_i32, asNumber_small n hb2,
          Bind.bind, Except.bind]
  case f32i32 =>
    cases x with
    | big v => exact absurd ht (by simp [SlotTyped])
    | num z =>
      have hz : reinterpret_i32_as_f32 (reinterpret_f32_as_i32 z) = z := ht
      refine ⟨.num (reinterpret_f32_as_i32 z), rfl, ?_, ?_⟩
      · refine ⟨toSigned 32 (f32bits z % 2 ^ 32), rfl, ?_, ?_⟩
        · exact (toSigned32_bound _ (f32bits_mod_lt z)).1
        · have h2 := (toSigned32_bound _ (f32bits_mod_lt z)).2
          have h31 : tpow 31 ≤ tpow 32 := by decide
          omega
      · show Except.ok (WasmVal.num (reinterpret_i32_as_f32 (reinterpret_f32_as_i32 z)))
            = Except.ok (WasmVal.num z)
        rw [hz]
  case f32i64 =>
    cases x with
    | big v => exact absurd ht (by simp [SlotTyped])
    | num z =>
      have hz : reinterpret_i32_as_f32 (reinterpret_f32_as_i32 z) = z := ht
      have hb2 := (toSigned32_bound _ (f32bits_mod_lt z)).2
      have h31 : tpow 31 ≤ tpow 32 := by decide
      have hlt : toSigned 32 (f32bits z % 2 ^ 32) < tpow 32 := by omega
      refine ⟨.big (toSigned 32 (f32bits z % 2 ^ 32)), ?_, trivial, ?_⟩
      · simp [coerce1Lower, reinterpret_f32_as_i64, reinterpret_f32_as_i32, JSNum.ofInt,
          jsBigInt_int, Bind.bind, Except.bind]
      · calc coerce1Lift .i64 .f32 (.big (toSigned 32 (f32bits z % 2 ^ 32)))
            = Except.ok (WasmVal.num (reinterpret_i32_as_f32 (reinterpret_f32_as_i32 z))) := by
              simp only [coerce1Lift, reinterpret_i64_as_f32, convert_i64_to_i32,
                Bind.bind, Except.bind]
              rw [asNumber_small _ hlt]
              simp only [reinterpret_f32_as_i32, JSNum.ofInt, pure, Except.pure]
          _ = Except.ok (WasmVal.num z) := by rw [hz]
  case f64i64 =>
    cases x with
    | big v => exact absurd ht (by simp [SlotTyped])
    | num z =>
      have hz : reinterpret_i64_as_f64 (reinterpret_f64_as_i64 z) = z := ht
      refine ⟨.big (reinterpret_f64_as_i64 z), rfl, trivial, ?_⟩
      show Except.ok (WasmVal.num (reinterpret_i64_as_f64 (reinterpret_f64_as_i64 z)))
          = Except.ok (WasmVal.num z)
      rw [hz]

/-- List version of the coercion round trip, mirroring the
`wantTypes`-indexed loop of `VariantType.lowerFlat` and the
`CoerceValueIter` of `liftFlat`. -/
theorem coerceList_roundtrip : ∀ (hs js : List WTN) (xs : List WasmVal),
    ExtCo hs js → SlotsTyped hs xs →
    ∃ ys, coerce1LowerList hs js xs = .ok ys ∧
      SlotsTyped (js.take hs.length) ys ∧ ys.length = hs.length ∧
      ∀ rest, coerce1LiftList js hs (ys ++ rest) = .ok (xs ++ rest) := by
  intro hs
  induction hs with
  | nil =>
    intro js xs _ ht
    cases xs with
    | nil =>
      refine ⟨[], by cases js <;> rfl, trivial, rfl, ?_⟩
      intro rest
      cases js <;> rfl
    | cons x xs => exact absurd ht (by simp [SlotsTyped])
  | cons h hs ih =>
    intro js xs hext ht
    cases js with
    | nil => exact absurd hext (by simp [ExtCo])
    | cons j js =>
      cases xs with
      | nil => exact absurd ht (by simp [SlotsTyped])
      | cons x xs =>
        obtain ⟨y, hy1, hy2, hy3⟩ := coerce1_roundtrip h j x hext.1 ht.1
        obtain ⟨ys, hys1, hys2, hys3, hys4⟩ := ih js xs hext.2 ht.2
        refine ⟨y :: ys, ?_, ⟨hy2, hys2⟩, by simp [hys3], ?_⟩
        · simp [coerce1LowerList, hy1, hys1, Bind.bind, Except.bind]
        · intro rest
          simp [coerce1LiftList, hy3, hys4 rest, Bind.bind, Except.bind]

theorem natLog2F_spec : ∀ (fuel m : Nat), 1 ≤ m → m < 2 ^ fuel →
    2 ^ natLog2F fuel m ≤ m ∧ m < 2 ^ (natLog2F fuel m + 1) := by
  intro fuel
  induction fuel with
  | zero => intro m h1 h2; omega
  | succ f ih =>
    intro m h1 h2
    by_cases hm : m ≤ 1
    · have : m = 1 := by omega
      simp [natLog2F, this]
    · have hrec := ih (m / 2) (by omega) (by omega)
      simp only [natLog2F, if_neg hm]
      constructor
      · calc 2 ^ (natLog2F f (m / 2) + 1) = 2 ^ natLog2F f (m / 2) * 2 := by ring
        _ ≤ m / 2 * 2 := by omega
        _ ≤ m := by omega
      · calc m < m / 2 * 2 + 2 := by omega
        _ ≤ 2 ^ (natLog2F f (m / 2) + 1) * 2 := by omega
        _ = 2 ^ (natLog2F f (m / 2) + 1 + 1) := by ring

theorem isNaN_fin (m e : Int) : JSNum.isNaN (.fin m e) = false := rfl

theorem jsToIdx_nat (i : Nat) : jsToIdx (.fin (i : Int) 0) = .ok i := by
  simp [jsToIdx, isInteger_int, toInt_int]

theorem asCodePoint_single (u : Nat) (h : u ≤ 0x10FFFF) : asCodePoint [u] = .ok u := by
  simp [asCodePoint, codePointAt0]
  omega

theorem fromCodePoint_bmp (u : Nat) (h1 : u ≤ 0xD7FF ∨ (0xE000 ≤ u ∧ u ≤ 0xFFFF)) :
    fromCodePoint u = .ok [u] := by
  have hc : ¬(0x110000 ≤ u ∨ (0xD800 ≤ u ∧ u ≤ 0xDFFF)) := by omega
  have hb : u ≤ 0xFFFF := by omega
  simp [fromCodePoint, fromCodePointUnits, hc, hb]

theorem DiscT.cap_le (d : DiscT) : d.cap ≤ 4294967295 := by cases d <;> decide

theorem DiscT.cap_pos (d : DiscT) : 0 ≤ d.cap := by cases d <;> decide

theorem slotTyped_i32_of_bounds (m : Int) (h1 : -2147483648 ≤ m) (h2 : m < 4294967296) :
    SlotTyped .i32 (.num (.fin m 0)) := by
  refine ⟨m, rfl, ?_, ?_⟩
  · have h31 : tpow 31 = 2147483648 := by decide
    omega
  · have h32 : tpow 32 = 4294967296 := by decide
    omega

theorem domCases_lt : ∀ (cs : VCaseList) (i : Nat) (o : Opts) (p : JVal),
    ValTy.domCases cs i o p = true → i < cs.length
  | .nil, _, _, _, h => Bool.noConfusion h
  | .consNone _, 0, _, _, _ => Nat.succ_pos _
  | .consSome _ _, 0, _, _, _ => Nat.succ_pos _
  | .consNone tl, i + 1, o, p, h => Nat.succ_lt_succ (domCases_lt tl i o p h)
  | .consSome _ tl, i + 1, o, p, h => Nat.succ_lt_succ (domCases_lt tl i o p h)

theorem dropPad (ts : List WTN) (rest : List WasmVal) :
    (padZeros ts ++ rest).drop ts.length = rest := by
  rw [← padZeros_length ts]
  exact List.drop_left _ _

/-- Characterization of the discriminant choice on the constructible
range: construction succeeds and the chosen type covers every case
index. -/
theorem discriminantType_ok (n : Nat) (h1 : 1 ≤ n) (h2 : n ≤ 2 ^ 24) :
    ∃ d, discriminantType n = .ok d ∧ (n : Int) ≤ d.cap + 1 := by
  by_cases hn1 : n ≤ 1
  · have hn : n = 1 := by omega
    subst hn
    exact ⟨.d8, by decide, by decide⟩
  · have hm1 : 1 ≤ n - 1 := by omega
    have h24 : (2 : Nat) ^ 24 = 16777216 := by norm_num
    have hmF : n - 1 < 2 ^ 4200 := by
      calc n - 1 < 2 ^ 24 := by omega
        _ ≤ 2 ^ 4200 := Nat.pow_le_pow_right (by norm_num) (by norm_num)
    have hspec := natLog2F_spec 4200 (n - 1) hm1 hmF
    set l := natLog2F 4200 (n - 1) with hl
    have hne : ¬ n = 0 := by omega
    have hform : discriminantType n =
        (match (l + 1 + 7) / 8 with
          | 0 => Except.ok DiscT.d8
          | 1 => Except.ok DiscT.d8
          | 2 => Except.ok DiscT.d16
          | 3 => Except.ok DiscT.d32
          | _ => Except.error CMErr.tooManyCases) := by
      simp only [discriminantType, if_neg hne, ceilLog2, if_neg hn1, natLog2, ← hl]
    by_cases hA : n ≤ 256
    · have hl7 : l ≤ 7 := by
        by_contra hc
        have hp : 2 ^ 8 ≤ 2 ^ l := Nat.pow_le_pow_right (by norm_num) (by omega)
        have h8 : (2 : Nat) ^ 8 = 256 := by norm_num
        omega
      have hdiv : (l + 1 + 7) / 8 = 1 := by omega
      exact ⟨.d8, by rw [hform, hdiv], by simp only [DiscT.cap]; omega⟩
    · by_cases hB : n ≤ 65536
      · have hlo : 8 ≤ l := by
          by_contra hc
          have hp : 2 ^ (l + 1) ≤ 2 ^ 8 := Nat.pow_le_pow_right (by norm_num) (by omega)
          have h8 : (2 : Nat) ^ 8 = 256 := by norm_num
          omega
        have hhi : l ≤ 15 := by
          by_contra hc
          have hp : 2 ^ 16 ≤ 2 ^ l := Nat.pow_le_pow_right (by norm_num) (by omega)
          have h16 : (2 : Nat) ^ 16 = 65536 := by norm_num
          omega
        have hdiv : (l + 1 + 7) / 8 = 2 := by omega
        exact ⟨.d16, by rw [hform, hdiv], by simp only [DiscT.cap]; omega⟩
      · have hhi : l ≤ 23 := by
          by_contra hc
          have hp : 2 ^ 24 ≤ 2 ^ l := Nat.pow_le_pow_right (by norm_num) (by omega)
          omega
        have hdiv3 : (l + 1 + 7) / 8 = 3 ∨ (l + 1 + 7) / 8 = 2 ∨ (l + 1 + 7) / 8 = 1 := by omega
        rcases hdiv3 with hdiv | hdiv | hdiv
        · exact ⟨.d32, by rw [hform, hdiv], by simp only [DiscT.cap]; omega⟩
        · have hlhi : l ≤ 15 := by omega
          have hp : 2 ^ (l + 1) ≤ 2 ^ 16 := Nat.pow_le_pow_right (by norm_num) (by omega)
          have h16 : (2 : Nat) ^ 16 = 65536 := by norm_num
          exact ⟨.d16, by rw [hform, hdiv], by simp only [DiscT.cap]; omega⟩
        · have hlhi : l ≤ 7 := by omega
          have hp : 2 ^ (l + 1) ≤ 2 ^ 8 := Nat.pow_le_pow_right (by norm_num) (by omega)
          have h8 : (2 : Nat) ^ 8 = 256 := by norm_num
          exact ⟨.d8, by rw [hform, hdiv], by simp only [DiscT.cap]; omega⟩

/-- Signed-width lower/lift round trip shared by `s8`/`s16`/`s32`. -/
theorem sRoundtrip (lo shi uhi m : Int) (hlo : lo = -(shi + 1)) (huhi : uhi = 2 * shi + 1)
    (hsh : 0 ≤ shi) (hb : lo ≤ m ∧ m ≤ shi) :
    ∃ n : Int, sLowerFlat lo shi (.fin m 0) = .ok [.num (.fin n 0)] ∧ 0 ≤ n ∧ n ≤ uhi ∧
      ∀ rest, sLiftFlat uhi shi (.num (.fin n 0) :: rest) = .ok (.fin m 0, rest) := by
  by_cases hneg : m < 0
  · refine ⟨m + (shi - lo + 1), sLowerFlat_neg _ _ _ hb.1 hneg hsh, by omega, by omega,
      fun rest => ?_⟩
    have h2 := sLiftFlat_high uhi shi (m + (shi - lo + 1)) rest (by omega) (by omega) (by omega)
    have harg : m + (shi - lo + 1) - (uhi + 1) = m := by omega
    rw [h2, harg]
  · refine ⟨m, sLowerFlat_nonneg _ _ _ (by omega) hb.2 (by omega), by omega, by omega,
      fun rest => ?_⟩
    exact sLiftFlat_low uhi shi m rest (by omega) hb.2 (by omega)

theorem repF32_sent : RepF32 f32NaN := by decide

theorem repF64_sent : RepF64 f64NaN := by decide

theorem f32LiftFlat_sent (rest : List WasmVal) :
    f32LiftFlat (.num f32NaN :: rest) = .ok (.nan, rest) := by
  simp [f32LiftFlat, iterNext, Bind.bind, Except.bind,
    (by decide : JSNum.lt f32NaN f32Low = false),
    (by decide : JSNum.gt f32NaN f32High = false),
    (by decide : JSNum.eqv f32NaN f32NaN = true)]

theorem f64LiftFlat_sent (rest : List WasmVal) :
    f64LiftFlat (.num f64NaN :: rest) = .ok (.nan, rest) := by
  simp [f64LiftFlat, iterNext, Bind.bind, Except.bind,
    (by decide : JSNum.lt f64NaN f64Low = false),
    (by decide : JSNum.gt f64NaN f64High = false),
    (by decide : JSNum.eqv f64NaN f64NaN = true)]

/-- `OptionType` round trip for the some side, given the payload
descriptor round trip. -/
theorem optionT_some_roundtrip (t : ValTy) (o : Opts) (v p : JVal) (sink : List WasmVal)
    (hopt : asOptionValue o v = .ok (true, p))
    (hres : (if o.keepOption then JVal.optionV true p else p) = v)
    (hlow : t.lowerFlat o p = .ok sink) (hst : SlotsTyped t.flatTypes sink)
    (hlift : ∀ rest, t.liftFlat o (sink ++ rest) = .ok (p, rest)) :
    ∃ sink2, ValTy.lowerFlat (.optionT t) o v = .ok sink2 ∧
      SlotsTyped (ValTy.flatTypes (.optionT t)) sink2 ∧
      ∀ rest, ValTy.liftFlat (.optionT t) o (sink2 ++ rest) = .ok (v, rest) := by
  refine ⟨.num (.fin 1 0) :: sink, ?_,
    ⟨slotTyped_i32_of_bounds 1 (by omega) (by omega), hst⟩, ?_⟩
  · simp [ValTy.lowerFlat, hopt, Bind.bind, Except.bind,
      uLowerFlat_int 255 1 (by omega) (by omega), hlow]
  · intro rest
    simp [ValTy.liftFlat, Bind.bind, Except.bind,
      uLiftFlat_int 255 1 (sink ++ rest) (by omega) (by omega), eqv_int, hlift rest, hres]

/-- `OptionType` round trip for the none side. -/
theorem optionT_none_roundtrip (t : ValTy) (o : Opts) (v : JVal)
    (hopt : asOptionValue o v = .ok (false, .undef))
    (hres : (if o.keepOption then JVal.optionV false .undef else JVal.undef) = v) :
    ∃ sink2, ValTy.lowerFlat (.optionT t) o v = .ok sink2 ∧
      SlotsTyped (ValTy.flatTypes (.optionT t)) sink2 ∧
      ∀ rest, ValTy.liftFlat (.optionT t) o (sink2 ++ rest) = .ok (v, rest) := by
  refine ⟨.num (.fin 0 0) :: padZeros t.flatTypes, ?_,
    ⟨slotTyped_i32_of_bounds 0 (by omega) (by omega), padZeros_typed _⟩, ?_⟩
  · simp [ValTy.lowerFlat, hopt, Bind.bind, Except.bind,
      uLowerFlat_int 255 0 (by omega) (by omega)]
  · intro rest
    simp [ValTy.liftFlat, Bind.bind, Except.bind,
      uLiftFlat_int 255 0 (padZeros t.flatTypes ++ rest) (by omega) (by omega), eqv_int,
      List.append_assoc, dropPad, hres]

theorem drop_one_add {α : Type} (a : α) (l : List α) (k : Nat) :
    (a :: l).drop (1 + k) = l.drop k := by
  rw [Nat.add_comm]
  rfl

set_option maxHeartbeats 2000000 in
mutual
/-- The lower/lift round trip over the descriptor family: on a
well-formed descriptor, a domain value with no sentinel-valued float
component lowers successfully to a slot list typed by `flatTypes`, and
lifting consumes exactly those slots and returns the value. -/
theorem ValTy.lowerLift : ∀ (t : ValTy) (o : Opts) (v : JVal),
    t.wfB = true → t.inDomain o v = true → t.noSent v = true →
    ∃ sink, t.lowerFlat o v = .ok sink ∧ SlotsTyped t.flatTypes sink ∧
      ∀ rest, t.liftFlat o (sink ++ rest) = .ok (v, rest)
  | .boolT, o, v, hwf, hd, hs => by
      rcases v with x | bg | b | u | vs | ⟨i, p⟩ | ⟨s, p⟩ | _ <;> try exact Bool.noConfusion hd
      cases b
      · exact ⟨[.num (.fin 0 0)], rfl, ⟨slotTyped_i32_of_bounds 0 (by omega) (by omega), trivial⟩,
          fun rest => by
            simp [ValTy.liftFlat, boolLiftFlat_int 0 rest (by omega), Bind.bind, Except.bind]⟩
      · exact ⟨[.num (.fin 1 0)], rfl, ⟨slotTyped_i32_of_bounds 1 (by omega) (by omega), trivial⟩,
          fun rest => by
            simp [ValTy.liftFlat, boolLiftFlat_int 1 rest (by omega), Bind.bind, Except.bind]⟩
  | .u8T, o, v, hwf, hd, hs => by
      rcases v with x | bg | b | u | vs | ⟨i, p⟩ | ⟨s, p⟩ | _ <;> try exact Bool.noConfusion hd
      rcases x with _ | bi | ⟨m, e⟩ <;> try exact Bool.noConfusion hd
      match e, hd with
      | .ofNat (k + 1), hd => exact Bool.noConfusion hd
      | .negSucc k, hd => exact Bool.noConfusion hd
      | 0, hd =>
        have hb : 0 ≤ m ∧ m ≤ 255 := of_decide_eq_true hd
        exact ⟨[.num (.fin m 0)], uLowerFlat_int 255 m hb.1 hb.2,
          ⟨slotTyped_i32_of_bounds m (by omega) (by omega), trivial⟩,
          fun rest => by
            simp [ValTy.liftFlat, uLiftFlat_int 255 m rest hb.1 hb.2, Bind.bind, Except.bind]⟩
  | .u16T, o, v, hwf, hd, hs => by
      rcases v with x | bg | b | u | vs | ⟨i, p⟩ | ⟨s, p⟩ | _ <;> try exact Bool.noConfusion hd
      rcases x with _ | bi | ⟨m, e⟩ <;> try exact Bool.noConfusion hd
      match e, hd with
      | .ofNat (k + 1), hd => exact Bool.noConfusion hd
      | .negSucc k, hd => exact Bool.noConfusion hd
      | 0, hd =>
        have hb : 0 ≤ m ∧ m ≤ 65535 := of_decide_eq_true hd
        exact ⟨[.num (.fin m 0)], uLowerFlat_int 65535 m hb.1 hb.2,
          ⟨slotTyped_i32_of_bounds m (by omega) (by omega), trivial⟩,
          fun rest => by
            simp [ValTy.liftFlat, uLiftFlat_int 65535 m rest hb.1 hb.2, Bind.bind, Except.bind]⟩
  | .u32T, o, v, hwf, hd, hs => by
      rcases v with x | bg | b | u | vs | ⟨i, p⟩ | ⟨s, p⟩ | _ <;> try exact Bool.noConfusion hd
      rcases x with _ | bi | ⟨m, e⟩ <;> try exact Bool.noConfusion hd
      match e, hd with
      | .ofNat (k + 1), hd => exact Bool.noConfusion hd
      | .negSucc k, hd => exact Bool.noConfusion hd
      | 0, hd =>
        have hb : 0 ≤ m ∧ m ≤ 4294967295 := of_decide_eq_true hd
        exact ⟨[.num (.fin m 0)], uLowerFlat_int 4294967295 m hb.1 hb.2,
          ⟨slotTyped_i32_of_bounds m (by omega) (by omega), trivial⟩,
          fun rest => by
            simp [ValTy.liftFlat, uLiftFlat_int 4294967295 m rest hb.1 hb.2,
              Bind.bind, Except.bind]⟩
  | .u64T, o, v, hwf, hd, hs => by
      rcases v with x | bg | b | u | vs | ⟨i, p⟩ | ⟨s, p⟩ | _ <;> try exact Bool.noConfusion hd
      have hb : (0 : Int) ≤ bg := of_decide_eq_true hd
      have hneg : ¬ bg < 0 := by omega
      exact ⟨[.big bg], by simp [ValTy.lowerFlat, u64LowerFlat, hneg], ⟨trivial, trivial⟩,
        fun rest => by
          simp [ValTy.liftFlat, u64LiftFlat, iterNext, hneg, Bind.bind, Except.bind]⟩
  | .s8T, o, v, hwf, hd, hs => by
      rcases v with x | bg | b | u | vs | ⟨i, p⟩ | ⟨s, p⟩ | _ <;> try exact Bool.noConfusion hd
      rcases x with _ | bi | ⟨m, e⟩ <;> try exact Bool.noConfusion hd
      match e, hd with
      | .ofNat (k + 1), hd => exact Bool.noConfusion hd
      | .negSucc k, hd => exact Bool.noConfusion hd
      | 0, hd =>
        have hb : -128 ≤ m ∧ m ≤ 127 := of_decide_eq_true hd
        obtain ⟨n, hlow, hn0, hn1, hlift⟩ :=
          sRoundtrip (-128) 127 255 m (by norm_num) (by norm_num) (by norm_num) hb
        exact ⟨[.num (.fin n 0)], hlow,
          ⟨slotTyped_i32_of_bounds n (by omega) (by omega), trivial⟩,
          fun rest => by simp [ValTy.liftFlat, hlift rest, Bind.bind, Except.bind]⟩
  | .s16T, o, v, hwf, hd, hs => by
      rcases v with x | bg | b | u | vs | ⟨i, p⟩ | ⟨s, p⟩ | _ <;> try exact Bool.noConfusion hd
      rcases x with _ | bi | ⟨m, e⟩ <;> try exact Bool.noConfusion hd
      match e, hd with
      | .ofNat (k + 1), hd => exact Bool.noConfusion hd
      | .negSucc k, hd => exact Bool.noConfusion hd
      | 0, hd =>
        have hb : -32768 ≤ m ∧ m ≤ 32767 := of_decide_eq_true hd
        obtain ⟨n, hlow, hn0, hn1, hlift⟩ :=
          sRoundtrip (-32768) 32767 65535 m (by norm_num) (by norm_num) (by norm_num) hb
        exact ⟨[.num (.fin n 0)], hlow,
          ⟨slotTyped_i32_of_bounds n (by omega) (by omega), trivial⟩,
          fun rest => by simp [ValTy.liftFlat, hlift rest, Bind.bind, Except.bind]⟩
  | .s32T, o, v, hwf, hd, hs => by
      rcases v with x | bg | b | u | vs | ⟨i, p⟩ | ⟨s, p⟩ | _ <;> try exact Bool.noConfusion hd
      rcases x with _ | bi | ⟨m, e⟩ <;> try exact Bool.noConfusion hd
      match e, hd with
      | .ofNat (k + 1), hd => exact Bool.noConfusion hd
      | .negSucc k, hd => exact Bool.noConfusion hd
      | 0, hd =>
        have hb : -2147483648 ≤ m ∧ m ≤ 2147483647 := of_decide_eq_true hd
        obtain ⟨n, hlow, hn0, hn1, hlift⟩ :=
          sRoundtrip (-2147483648) 2147483647 4294967295 m
            (by norm_num) (by norm_num) (by norm_num) hb
        exact ⟨[.num (.fin n 0)], hlow,
          ⟨slotTyped_i32_of_bounds n (by omega) (by omega), trivial⟩,
          fun rest => by simp [ValTy.liftFlat, hlift rest, Bind.bind, Except.bind]⟩
  | .s64T, o, v, hwf, hd, hs => by
      rcases v with x | bg | b | u | vs | ⟨i, p⟩ | ⟨s, p⟩ | _ <;> try exact Bool.noConfusion hd
      have hb : -tpow 63 ≤ bg ∧ bg ≤ tpow 63 - 1 := of_decide_eq_true hd
      have h63 : tpow 63 = 9223372036854775808 := by decide
      have h64 : tpow 64 = 18446744073709551616 := by decide
      have hrange : ¬ (bg < -tpow 63 ∨ tpow 63 - 1 < bg) := by omega
      by_cases hneg : bg < 0
      · refine ⟨[.big (bg + tpow 64)],
          by simp [ValTy.lowerFlat, s64LowerFlat, hrange, hneg], ⟨trivial, trivial⟩,
          fun rest => ?_⟩
        have hc1 : ¬ bg + tpow 64 < 0 := by omega
        have hc2 : ¬ bg + tpow 64 ≤ tpow 63 - 1 := by omega
        simp [ValTy.liftFlat, s64LiftFlat, iterNext, hc1, hc2, Bind.bind, Except.bind]
      · refine ⟨[.big bg], by simp [ValTy.lowerFlat, s64LowerFlat, hrange, hneg],
          ⟨trivial, trivial⟩, fun rest => ?_⟩
        have hc1 : ¬ bg < 0 := by omega
        simp [ValTy.liftFlat, s64LiftFlat, iterNext, hc1, hb.2, Bind.bind, Except.bind]
  | .f32T, o, v, hwf, hd, hs => by
      rcases v with x | bg | b | u | vs | ⟨i, p⟩ | ⟨s, p⟩ | _ <;> try exact Bool.noConfusion hd
      rcases x with _ | bi | ⟨m, e⟩ <;> try exact Bool.noConfusion hd
      · refine ⟨[.num f32NaN], rfl, ⟨repF32_sent, trivial⟩, fun rest => ?_⟩
        simp [ValTy.liftFlat, f32LiftFlat_sent rest, Bind.bind, Except.bind]
      · have hd2 : (!JSNum.lt (.fin m e) f32Low && !JSNum.gt (.fin m e) f32High
            && decide (RepF32 (.fin m e))) = true := hd
        rw [Bool.and_eq_true, Bool.and_eq_true, Bool.not_eq_true', Bool.not_eq_true'] at hd2
        obtain ⟨⟨hlt, hgt⟩, hrep2⟩ := hd2
        have hrep : RepF32 (.fin m e) := of_decide_eq_true hrep2
        have hs2 : (!JSNum.eqv (.fin m e) f32NaN) = true := hs
        rw [Bool.not_eq_true'] at hs2
        refine ⟨[.num (.fin m e)],
          by simp [ValTy.lowerFlat, f32LowerFlat, hlt, hgt, isNaN_fin],
          ⟨hrep, trivial⟩, fun rest => ?_⟩
        simp [ValTy.liftFlat, f32LiftFlat, iterNext, hlt, hgt, hs2, Bind.bind, Except.bind]
  | .f64T, o, v, hwf, hd, hs => by
      rcases v with x | bg | b | u | vs | ⟨i, p⟩ | ⟨s, p⟩ | _ <;> try exact Bool.noConfusion hd
      rcases x with _ | bi | ⟨m, e⟩ <;> try exact Bool.noConfusion hd
      · refine ⟨[.num f64NaN], rfl, ⟨repF64_sent, trivial⟩, fun rest => ?_⟩
        simp [ValTy.liftFlat, f64LiftFlat_sent rest, Bind.bind, Except.bind]
      · have hd2 : (!JSNum.lt (.fin m e) f64Low && !JSNum.gt (.fin m e) f64High
            && decide (RepF64 (.fin m e))) = true := hd
        rw [Bool.and_eq_true, Bool.and_eq_true, Bool.not_eq_true', Bool.not_eq_true'] at hd2
        obtain ⟨⟨hlt, hgt⟩, hrep2⟩ := hd2
        have hrep : RepF64 (.fin m e) := of_decide_eq_true hrep2
        have hs2 : (!JSNum.eqv (.fin m e) f64NaN) = true := hs
        rw [Bool.not_eq_true'] at hs2
        refine ⟨[.num (.fin m e)],
          by simp [ValTy.lowerFlat, f64LowerFlat, hlt, hgt, isNaN_fin],
          ⟨hrep, trivial⟩, fun rest => ?_⟩
        simp [ValTy.liftFlat, f64LiftFlat, iterNext, hlt, hgt, hs2, Bind.bind, Except.bind]
  | .charT, o, v, hwf, hd, hs => by
      rcases v with x | bg | b | u | vs | ⟨i, p⟩ | ⟨s, p⟩ | _ <;> try exact Bool.noConfusion hd
      match u, hd with
      | [], hd => exact Bool.noConfusion hd
      | u0 :: u1 :: us, hd => exact Bool.noConfusion hd
      | [u0], hd =>
        have hu : u0 ≤ 0xD7FF ∨ (0xE000 ≤ u0 ∧ u0 ≤ 0xFFFF) := of_decide_eq_true hd
        have hmax : u0 ≤ 0x10FFFF := by omega
        have h2 : (u0 : Int) ≤ 4294967295 := by omega
        refine ⟨[.num (.fin (u0 : Int) 0)], ?_,
          ⟨slotTyped_i32_of_bounds _ (by omega) (by omega), trivial⟩, fun rest => ?_⟩
        · simp [ValTy.lowerFlat, asCodePoint_single u0 hmax, Bind.bind, Except.bind,
            uLowerFlat_int 4294967295 (u0 : Int) (by omega) h2]
        · simp [ValTy.liftFlat, Bind.bind, Except.bind,
            uLiftFlat_int 4294967295 (u0 : Int) rest (by omega) h2, toInt_int,
            Int.toNat_natCast, fromCodePoint_bmp u0 hu]
  | .enumT nc, o, v, hwf, hd, hs => by
      rcases v with x | bg | b | u | vs | ⟨i, p⟩ | ⟨s, p⟩ | _ <;> try exact Bool.noConfusion hd
      rcases x with _ | bi | ⟨m, e⟩ <;> try exact Bool.noConfusion hd
      match e, hd with
      | .ofNat (k + 1), hd => exact Bool.noConfusion hd
      | .negSucc k, hd => exact Bool.noConfusion hd
      | 0, hd =>
        have hn : 1 ≤ nc ∧ nc ≤ 2 ^ 24 := of_decide_eq_true hwf
        have hb : 0 ≤ m ∧ m < (nc : Int) := of_decide_eq_true hd
        obtain ⟨d, hdisc, hcap⟩ := discriminantType_ok nc hn.1 hn.2
        have hcaple := DiscT.cap_le d
        have hmle : m ≤ d.cap := by omega
        have hc1 : ¬ m < 0 := by omega
        have hgtf : ¬ ((nc : Int) < m) := by omega
        refine ⟨[.num (.fin m 0)], ?_,
          ⟨slotTyped_i32_of_bounds m (by omega) (by omega), trivial⟩, fun rest => ?_⟩
        · simp [ValTy.lowerFlat, hdisc, Bind.bind, Except.bind,
            uLowerFlat_int d.cap m hb.1 hmle]
        · simp [ValTy.liftFlat, hdisc, Bind.bind, Except.bind,
            uLiftFlat_int d.cap m rest hb.1 hmle, enumAssertRange, lt_int, gt_int, hc1, hgtf]
  | .tupleT fs, o, v, hwf, hd, hs => by
      rcases v with x | bg | b | u | vs | ⟨i, p⟩ | ⟨s, p⟩ | _ <;> try exact Bool.noConfusion hd
      obtain ⟨sink, h1, h2, h3⟩ := ValTy.lowerLiftList fs o vs hwf hd hs
      exact ⟨sink, h1, h2, fun rest => by
        simp [ValTy.liftFlat, Bind.bind, Except.bind, h3 rest]⟩
  | .optionT t, o, v, hwf, hd, hs => by
      cases hk : o.keepOption
      · rcases v with x | bg | b | u | vs | ⟨i, p⟩ | ⟨s, p⟩ | _
        case optionV => simp [ValTy.inDomain, hk] at hd
        case undef =>
          exact optionT_none_roundtrip t o .undef (by simp [asOptionValue, hk]) (by simp [hk])
        all_goals
          simp only [ValTy.inDomain, hk, Bool.false_eq_true, if_false] at hd
          obtain ⟨sink, h1, h2, h3⟩ := ValTy.lowerLift t o _ hwf hd hs
          exact optionT_some_roundtrip t o _ _ sink (by simp [asOptionValue, hk])
            (by simp [hk]) h1 h2 h3
      · rcases v with x | bg | b | u | vs | ⟨i, p⟩ | ⟨s, p⟩ | _
        case optionV =>
          cases s
          · rcases p with px | pbg | pb | pu | pvs | ⟨pi, pp⟩ | ⟨ps, pp⟩ | _ <;>
              try simp [ValTy.inDomain, hk] at hd
            exact optionT_none_roundtrip t o _ (by simp [asOptionValue, hk]) (by simp [hk])
          · simp only [ValTy.inDomain, hk, if_true] at hd
            obtain ⟨sink, h1, h2, h3⟩ := ValTy.lowerLift t o p hwf hd hs
            exact optionT_some_roundtrip t o _ p sink (by simp [asOptionValue, hk])
              (by simp [hk]) h1 h2 h3
        all_goals simp [ValTy.inDomain, hk] at hd
  | .variantT cs, o, v, hwf, hd, hs => by
      rcases v with x | bg | b | u | vs | ⟨i, p⟩ | ⟨s, p⟩ | _ <;> try exact Bool.noConfusion hd
      simp only [ValTy.wfB, Bool.and_eq_true, decide_eq_true_eq] at hwf
      obtain ⟨⟨hn1, hn2⟩, hwfc⟩ := hwf
      obtain ⟨d, hdisc, hcap⟩ := discriminantType_ok cs.length hn1 hn2
      have hcaple := DiscT.cap_le d
      have hilt : i < cs.length := domCases_lt cs i o p hd
      have hile : (i : Int) ≤ d.cap := by omega
      obtain ⟨r, hwalk, hpost⟩ := ValTy.lowerLiftCases cs i (ValTy.variantPayloadFlat [] cs)
        o p hwfc hd hs (casesExt_payloadFlat cs [])
      match r, hpost with
      | none, hpost =>
        obtain ⟨hp, hwl⟩ := hpost
        subst hp
        refine ⟨.num (.fin (i : Int) 0) :: padZeros (ValTy.variantPayloadFlat [] cs), ?_,
          ⟨slotTyped_i32_of_bounds _ (by omega) (by omega), padZeros_typed _⟩, fun rest => ?_⟩
        · simp [ValTy.lowerFlat, hdisc, Bind.bind, Except.bind,
            uLowerFlat_int d.cap (i : Int) (by omega) hile, ValTy.flatTypes, hwalk]
        · simp [ValTy.liftFlat, hdisc, Bind.bind, Except.bind, ValTy.flatTypes,
            uLiftFlat_int d.cap (i : Int)
              (padZeros (ValTy.variantPayloadFlat [] cs) ++ rest) (by omega) hile,
            jsToIdx_nat, hwl, dropPad]
      | some pl, hpost =>
        obtain ⟨k, hty, hlen, hwl⟩ := hpost
        have hkJ : k ≤ (ValTy.variantPayloadFlat [] cs).length := by
          have hh := slotsTyped_length _ _ hty
          rw [List.length_take] at hh
          omega
        refine ⟨.num (.fin (i : Int) 0) ::
            (pl ++ padZeros ((ValTy.variantPayloadFlat [] cs).drop k)), ?_, ?_, fun rest => ?_⟩
        · simp [ValTy.lowerFlat, hdisc, Bind.bind, Except.bind,
            uLowerFlat_int d.cap (i : Int) (by omega) hile, ValTy.flatTypes, hwalk, hlen,
            drop_one_add]
        · refine ⟨slotTyped_i32_of_bounds _ (by omega) (by omega), ?_⟩
          have hap := slotsTyped_append _ _ _ _ hty
            (padZeros_typed ((ValTy.variantPayloadFlat [] cs).drop k))
          rwa [List.take_append_drop] at hap
        · have hdrop : (padZeros ((ValTy.variantPayloadFlat [] cs).drop k) ++ rest).drop
              ((ValTy.variantPayloadFlat [] cs).length - k) = rest := by
            have hdp := dropPad ((ValTy.variantPayloadFlat [] cs).drop k) rest
            rwa [List.length_drop] at hdp
          simp [ValTy.liftFlat, hdisc, Bind.bind, Except.bind, ValTy.flatTypes,
            uLiftFlat_int d.cap (i : Int)
              (pl ++ (padZeros ((ValTy.variantPayloadFlat [] cs).drop k) ++ rest))
              (by omega) hile,
            jsToIdx_nat, List.append_assoc, hwl, hdrop]

theorem ValTy.lowerLiftList : ∀ (ts : ValTyList) (o : Opts) (vs : JValList),
    ValTy.wfList ts = true → ValTy.domList ts o vs = true → ValTy.noSentList ts vs = true →
    ∃ sink, ValTy.lowerFields ts o vs = .ok sink ∧ SlotsTyped (ValTy.flatTypesList ts) sink ∧
      ∀ rest, ValTy.liftFields ts o (sink ++ rest) = .ok (vs, rest)
  | .nil, o, vs, hwf, hd, hs => by
      cases vs with
      | nil => exact ⟨[], rfl, trivial, fun rest => rfl⟩
      | cons v vs => exact Bool.noConfusion hd
  | .cons t ts, o, vs, hwf, hd, hs => by
      cases vs with
      | nil => exact Bool.noConfusion hd
      | cons v vs =>
        simp only [ValTy.wfList, Bool.and_eq_true] at hwf
        simp only [ValTy.domList, Bool.and_eq_true] at hd
        simp only [ValTy.noSentList, Bool.and_eq_true] at hs
        obtain ⟨sa, ha1, ha2, ha3⟩ := ValTy.lowerLift t o v hwf.1 hd.1 hs.1
        obtain ⟨sb, hb1, hb2, hb3⟩ := ValTy.lowerLiftList ts o vs hwf.2 hd.2 hs.2
        refine ⟨sa ++ sb, ?_, slotsTyped_append _ _ _ _ ha2 hb2, fun rest => ?_⟩
        · simp [ValTy.lowerFields, ha1, hb1, Bind.bind, Except.bind]
        · simp [ValTy.liftFields, List.append_assoc, ha3, hb3 rest, Bind.bind, Except.bind]

theorem ValTy.lowerLiftCases : ∀ (cs : VCaseList) (i : Nat) (joined : List WTN) (o : Opts)
    (p : JVal),
    ValTy.wfCases cs = true → ValTy.domCases cs i o p = true →
    ValTy.noSentCases cs i p = true → CasesExt cs joined →
    ∃ r, ValTy.walkLower cs i joined o p = .ok r ∧
      match r with
      | none => p = .undef ∧ ∀ rest, ValTy.walkLift cs i joined o rest = .ok (.undef, 0, rest)
      | some pl => ∃ k, SlotsTyped (joined.take k) pl ∧ pl.length = k ∧
          ∀ rest, ValTy.walkLift cs i joined o (pl ++ rest) = .ok (p, k, rest)
  | .nil, i, joined, o, p, hwf, hd, hs, hext => Bool.noConfusion hd
  | .consNone tl, 0, joined, o, p, hwf, hd, hs, hext => by
      have hp : p = .undef := by simpa [ValTy.domCases] using hd
      exact ⟨none, rfl, hp, fun rest => rfl⟩
  | .consSome t tl, 0, joined, o, p, hwf, hd, hs, hext => by
      simp only [ValTy.domCases, Bool.and_eq_true] at hd
      obtain ⟨hpne, hdp⟩ := hd
      simp only [ValTy.wfCases, Bool.and_eq_true] at hwf
      obtain ⟨sink, h1, h2, h3⟩ := ValTy.lowerLift t o p hwf.1 hdp hs
      have hlensink : sink.length = t.flatTypes.length := slotsTyped_length _ _ h2
      obtain ⟨ys, hy1, hy2, hy3, hy4⟩ := coerceList_roundtrip t.flatTypes joined sink hext.1 h2
      have hpneq : ¬ (p = .undef) := by simpa using hpne
      have hlen2 : ¬ (joined.length < t.flatTypes.length) := by
        have hel := extCo_length _ _ hext.1
        omega
      refine ⟨some ys, ?_, t.flatTypes.length, hy2, hy3, fun rest => ?_⟩
      · simp [ValTy.walkLower, hpneq, h1, Bind.bind, Except.bind, hlensink, hy1]
      · simp [ValTy.walkLift, hlen2, Bind.bind, Except.bind, hy4 rest, h3 rest]
  | .consNone tl, i + 1, joined, o, p, hwf, hd, hs, hext =>
      ValTy.lowerLiftCases tl i joined o p hwf hd hs hext
  | .consSome t tl, i + 1, joined, o, p, hwf, hd, hs, hext => by
      simp only [ValTy.wfCases, Bool.and_eq_true] at hwf
      exact ValTy.lowerLiftCases tl i joined o p hwf.2 hd hs hext.2
end


theorem writeByte_ascii (m : Mem) (p v : Nat) (hm : ∀ i, m.data i ≤ 0x7F)
    (hv : v % 256 ≤ 0x7F) : ∀ i, (m.writeByte p v).data i ≤ 0x7F := by
  intro i
  simp only [Mem.writeByte]
  split
  · exact hv
  · exact hm i

theorem writeLE_ascii : ∀ (w : Nat) (m : Mem) (p v : Nat), (∀ i, m.data i ≤ 0x7F) →
    v ≤ 0x7F → ∀ i, (writeLE m p w v).data i ≤ 0x7F := by
  intro w
  induction w with
  | zero => intro m p v hm _ i; exact hm i
  | succ k ih =>
    intro m p v hm hv i
    exact ih _ _ _ (writeByte_ascii m p _ hm (by omega)) (by omega) i

theorem writeBytes_ascii : ∀ (bs : List Nat) (m : Mem) (p : Nat), (∀ i, m.data i ≤ 0x7F) →
    (∀ b ∈ bs, b ≤ 0x7F) → ∀ i, (writeBytes m p bs).data i ≤ 0x7F := by
  intro bs
  induction bs with
  | nil => intro m p hm _ i; exact hm i
  | cons b bs ih =>
    intro m p hm hb i
    refine ih _ _ (writeByte_ascii m p b hm ?_) (fun x hx => hb x (List.mem_cons_of_mem _ hx)) i
    have := hb b (List.mem_cons_self b bs)
    omega

theorem c1mem_bytes_ascii : ∀ i : Nat, c1mem.data (0 + i) ≤ 0x7F := by
  intro i
  refine writeLE_ascii 4 _ 12 2 ?_ (by norm_num) (0 + i)
  refine writeLE_ascii 4 _ 8 0 ?_ (by norm_num)
  refine writeBytes_ascii [104, 105] _ 0 ?_ ?_
  · intro j
    exact Nat.zero_le _
  · intro b hb
    simp at hb
    rcases hb with rfl | rfl <;> norm_num

theorem utf8DecodeGo_ascii_length (byteAt : Nat → Nat) (h : ∀ i, byteAt i ≤ 0x7F) :
    ∀ (n p : Nat), (utf8DecodeGo byteAt n p (0, 0, 0x80, 0xBF)).length = n := by
  intro n
  induction n with
  | zero => intro p; rfl
  | succ k ih =>
    intro p
    simp [utf8DecodeGo, utf8Start, h p, ih (p + 1)]

theorem utf8Decode_ascii_length (byteAt : Nat → Nat) (h : ∀ i, byteAt i ≤ 0x7F) (n : Nat) :
    (utf8Decode byteAt n).length = n :=
  utf8DecodeGo_ascii_length byteAt h n 0

theorem beq_false_of_length_ne {as bs : List Nat} (h : ¬ as.length = bs.length) :
    (as == bs) = false := by
  cases hb : as == bs
  · rfl
  · exact absurd (congrArg List.length (eq_of_beq hb)) h

/-- C1: the store/load round trip fails for the `wstring` descriptor:
`store` writes the header (data pointer and code-unit count) little-endian
but `load` reads it back big-endian (the `littleEndian` argument of
`getUint32` is omitted), so storing the 2-unit string "hi" at an aligned
pointer of a fresh memory and loading from the same pointer yields a
33554432-unit string instead of the original. -/
theorem c1_wstring_header_endianness :
    wstringStore memFresh 8 [104, 105] optUtf8 = .ok c1mem ∧
    readLE c1mem 8 4 = 0 ∧ readLE c1mem (8 + 4) 4 = 2 ∧
    getUint32 c1mem 8 false = 0 ∧ getUint32 c1mem (8 + 4) false = 33554432 ∧
    ∃ units, wstringLoad c1mem 8 optUtf8 = .ok units ∧
      units.length = 33554432 ∧ (units == [104, 105]) = false := by
  have hb : ∀ i, c1mem.data (getUint32 c1mem 8 false + i) ≤ 0x7F := by
    have hdp : getUint32 c1mem 8 false = 0 := by decide
    rw [hdp]
    exact c1mem_bytes_ascii
  refine ⟨rfl, by decide, by decide, by decide, by decide,
    utf8Decode (fun i => c1mem.data (getUint32 c1mem 8 false + i))
      (getUint32 c1mem (8 + 4) false), rfl, ?_, ?_⟩
  · calc (utf8Decode (fun i => c1mem.data (getUint32 c1mem 8 false + i))
          (getUint32 c1mem (8 + 4) false)).length
        = getUint32 c1mem (8 + 4) false := utf8Decode_ascii_length _ hb _
      _ = 33554432 := by decide
  · apply beq_false_of_length_ne
    rw [utf8Decode_ascii_length _ hb]
    decide

/-- C2 (amended): for every well-formed descriptor and every domain value
none of whose float components equals the NaN sentinel value, lowering
into an empty sink succeeds and lifting from an iterator over the sink
yields the value back, consuming exactly `flatTypes.length` slots. -/
theorem c2_lower_lift_roundtrip (t : ValTy) (o : Opts) (v : JVal)
    (hwf : t.wfB = true) (hd : t.inDomain o v = true) (hs : t.noSent v = true) :
    ∃ sink, t.lowerFlat o v = .ok sink ∧ sink.length = t.flatTypes.length ∧
      ∀ rest, t.liftFlat o (sink ++ rest) = .ok (v, rest) := by
  obtain ⟨sink, h1, h2, h3⟩ := ValTy.lowerLift t o v hwf hd hs
  exact ⟨sink, h1, slotsTyped_length _ _ h2, h3⟩

theorem c2_lower_lift_roundtrip_witness :
    ValTy.wfB (.variantT (.consSome .u32T (.consSome .f32T .nil))) = true ∧
    ValTy.inDomain (.variantT (.consSome .u32T (.consSome .f32T .nil))) optUtf8
      (.variantV 1 (.num (.fin 3 (-1)))) = true ∧
    ValTy.noSent (.variantT (.consSome .u32T (.consSome .f32T .nil)))
      (.variantV 1 (.num (.fin 3 (-1)))) = true ∧
    (∃ sink, ValTy.lowerFlat (.variantT (.consSome .u32T (.consSome .f32T .nil))) optUtf8
        (.variantV 1 (.num (.fin 3 (-1)))) = .ok sink ∧
      sink.length = (ValTy.flatTypes (.variantT (.consSome .u32T (.consSome .f32T .nil)))).length ∧
      ∀ rest, ValTy.liftFlat (.variantT (.consSome .u32T (.consSome .f32T .nil))) optUtf8
        (sink ++ rest) = .ok (.variantV 1 (.num (.fin 3 (-1))), rest)) :=
  ⟨by decide, by decide, by decide,
    c2_lower_lift_roundtrip (.variantT (.consSome .u32T (.consSome .f32T .nil))) optUtf8
      (.variantV 1 (.num (.fin 3 (-1)))) (by decide) (by decide) (by decide)⟩

/-- C2 counterexample to the unamended claim: the finite float32 value
2143289344 (the numeric value of the NaN sentinel bits 0x7fc00000) is in
the descriptor's domain and lowers to itself, but lifts back as NaN, so
the round trip does not return a value equal to the original. -/
theorem c2_sentinel_counterexample :
    ValTy.inDomain .f32T optUtf8 (.num (.fin 2143289344 0)) = true ∧
    ValTy.lowerFlat .f32T optUtf8 (.num (.fin 2143289344 0)) = .ok [.num (.fin 2143289344 0)] ∧
    ValTy.liftFlat .f32T optUtf8 [.num (.fin 2143289344 0)] = .ok (.num .nan, []) ∧
    ((JVal.num .nan) == .num (.fin 2143289344 0)) = false := by
  refine ⟨by decide, by decide, by decide, by decide⟩

/-- C3: for the record of a `u8` field followed by a `u32` field the
constructor assigns offsets 0 and 4 (each field offset is aligned up) and
the alignment and flat types follow the children, but the `size`
attribute is 5, not 8: the `BaseRecordType.size` loop discards the result
of its `align` call, so the size is the unpadded sum of the field
sizes. -/
theorem c3_record_size_drops_alignment :
    recordOffsets [.u8T, .u32T] = [0, 4] ∧
    ValTy.alignmentV (.tupleT (toValTyList [.u8T, .u32T])) = 4 ∧
    ValTy.flatTypes (.tupleT (toValTyList [.u8T, .u32T])) = [.i32, .i32] ∧
    ValTy.sizeV (.tupleT (toValTyList [.u8T, .u32T])) = 5 ∧
    decide (ValTy.sizeV (.tupleT (toValTyList [.u8T, .u32T])) = 8) = false := by
  refine ⟨by decide, by decide, by decide, by decide, by decide⟩

/-- C4: after setting flags 1 and 25 on a fresh 26-flag value the getters
expose exactly those two flags, and the closure binding holds 0x02000002 — 
but the setters mutate only the closure binding while `store` writes the
object's `_bits` property, which still holds the original 0, so the wire
word written is 0 rather than 0x02000002. -/
theorem c4_flags_store_reads_stale_bits :
    c4flags.getFlag 1 = true ∧ c4flags.getFlag 25 = true ∧ c4flags.getFlag 0 = false ∧
    c4flags.getFlag 2 = false ∧
    c4flags.closureBits = 0x02000002 ∧ c4flags.bitsField = 0 ∧
    readLE (flagsStoreSingle32 memFresh 0 c4flags) 0 4 = 0 ∧
    decide (readLE (flagsStoreSingle32 memFresh 0 c4flags) 0 4 = 0x02000002) = false := by
  refine ⟨by decide, by decide, by decide, by decide, by decide, by decide, by decide, by decide⟩

/-- C5: the store/lower direction does not reject surrogate code points:
`asCodePoint` accepts the one-unit surrogate string 0xD800 (its range
check is vacuously true), so `lowerFlat` and `store` succeed on it, while
the load/lift direction (`fromCodePoint`) rejects the same code point. -/
theorem c5_char_lower_accepts_surrogate :
    asCodePoint [0xD800] = .ok 0xD800 ∧
    ValTy.lowerFlat .charT optUtf8 (.str [0xD800]) = .ok [.num (.fin 0xD800 0)] ∧
    (∃ m2, ValTy.store .charT optUtf8 memFresh 0 (.str [0xD800]) = .ok m2) ∧
    fromCodePoint 0xD800 = .error .invalidCodePoint ∧
    ValTy.liftFlat .charT optUtf8 [.num (.fin 0xD800 0)] = .error .invalidCodePoint := by
  refine ⟨by decide, by decide, ⟨_, rfl⟩, by decide, by decide⟩

/-- C6: `callService` does not follow the arity convention for
`return_flat_count = 0`: it reads the last flat parameter as an out
pointer and rejects the call when it is not a number before ever calling
`lowerReturnValue`, so a void function with zero parameters fails with
the out-pointer error even though `lowerReturnValue` itself would return
nothing. -/
theorem c6_callservice_out_check_unconditional :
    FuncTy.callService ⟨[], none⟩ (fun _ => none) [] memFresh optUtf8
      = .error .resultPtrNotNumber ∧
    FuncTy.lowerReturnValue ⟨[], none⟩ none memFresh optUtf8 none = .ok (none, memFresh) ∧
    FuncTy.returnFlatTypes ⟨[], none⟩ = 0 := by
  refine ⟨rfl, rfl, rfl⟩

/-- C7: for `return_flat_count = 1`, `callWasm` returns the guest's flat
value without lifting it through the return type descriptor: a guest
returning the flat `1` for a `bool` return produces the raw number 1,
while `liftReturnValue` on the same value produces the native boolean
`true`. -/
theorem c7_callwasm_returns_unlifted_flat :
    FuncTy.callWasm ⟨[], some .boolT⟩ .nil c7fn memFresh optUtf8
      = .ok (some (.num (.fin 1 0)), memFresh) ∧
    FuncTy.liftReturnValue ⟨[], some .boolT⟩ (some (.num (.fin 1 0))) memFresh optUtf8
      = .ok (some (.boolV true)) ∧
    ((JVal.num (.fin 1 0)) == .boolV true) = false := by
  refine ⟨rfl, by decide, by decide⟩

/-- C8: the enum range check uses `value > cases` instead of
`value >= cases`, so the out-of-range discriminant `cases` itself is
accepted by `lift` and by the `store`/`load` path, while `cases + 1` is
rejected; the claimed acceptance condition `0 ≤ v < case_count` is
violated at `v = case_count`. -/
theorem c8_enum_accepts_case_count :
    enumAssertRange 3 (.fin 3 0) = .ok (.fin 3 0) ∧
    ValTy.liftFlat (.enumT 3) optUtf8 [.num (.fin 3 0)] = .ok (.num (.fin 3 0), []) ∧
    (∃ m2, ValTy.store (.enumT 3) optUtf8 memFresh 0 (.num (.fin 3 0)) = .ok m2 ∧
      ValTy.load (.enumT 3) optUtf8 m2 0 = .ok (.num (.fin 3 0))) ∧
    ValTy.inDomain (.enumT 3) optUtf8 (.num (.fin 3 0)) = false ∧
    ValTy.liftFlat (.enumT 3) optUtf8 [.num (.fin 4 0)] = .error .enumOutOfRange := by
  refine ⟨by decide, by decide, ⟨_, rfl, by decide⟩, by decide, by decide⟩

/-- C9: the discriminant sizing follows the claimed table only up to
2^24 cases: the `switch` on `Math.ceil(Math.log2(cases) / 8)` has no arm
for the value 4, so construction fails from 2^24 + 1 cases on — in
particular a variant with 2^24 + 1 cases does not construct with a `u32`
discriminant but throws. -/
theorem c9_discriminant_fails_above_2pow24 :
    discriminantType 1 = .ok .d8 ∧ discriminantType 256 = .ok .d8 ∧
    discriminantType 257 = .ok .d16 ∧ discriminantType 65536 = .ok .d16 ∧
    discriminantType 65537 = .ok .d32 ∧ discriminantType (2 ^ 24) = .ok .d32 ∧
    discriminantType (2 ^ 24 + 1) = .error .tooManyCases := by
  refine ⟨by decide, by decide, by decide, by decide, by decide, by decide, by decide⟩

/-- C10: float NaN canonicalization is by numeric value: `lowerFlat`
pushes the plain number 2143289344 for a float32 NaN and `liftFlat` maps
a slot holding exactly that number to NaN, so the legitimate finite value
2143289344 lifts as NaN and does not round-trip; float64 behaves the same
with 9221120237041090560 (= 0x7ff8000000000000). -/
theorem c10_float_nan_sentinel_by_value :
    f32LowerFlat .nan = .ok [.num (.fin 2143289344 0)] ∧
    f32LiftFlat [.num (.fin 2143289344 0)] = .ok (.nan, []) ∧
    ValTy.inDomain .f32T optUtf8 (.num (.fin 2143289344 0)) = true ∧
    ValTy.liftFlat .f32T optUtf8 [.num (.fin 2143289344 0)] = .ok (.num .nan, []) ∧
    ((JSNum.nan : JSNum) == .fin 2143289344 0) = false ∧
    f64LowerFlat .nan = .ok [.num (.fin 9221120237041090560 0)] ∧
    f64LiftFlat [.num (.fin 9221120237041090560 0)] = .ok (.nan, []) ∧
    ValTy.liftFlat .f64T optUtf8 [.num (.fin 9221120237041090560 0)] = .ok (.num .nan, []) := by
  refine ⟨by decide, by decide, by decide, by decide, by decide, by decide, by decide, by decide⟩

end CM
